import Mathlib

/-!
# Shared / weak ownership pointers: a shallow embedding

The C++ classes of `shared_ptr.cpp` and `weak_ptr.cpp` are embedded as
functions on an explicit program state.  A state holds

* the heap of control blocks (`StoredObject`), addressed by allocation order,
* the log of `delete data_` events and the log of destroyed managed objects,
* the `SharedPtr` and `WeakPtr` instances, addressed by construction order
  (a destroyed instance leaves `none` behind).

Every C++ member function becomes a function `State → ... → Option State`;
`none` stands for undefined behaviour (null dereference, access to a control
block that has already been deleted, use of a destroyed instance).
Counters are `size_t`: arithmetic on them is taken modulo `2 ^ 64`.
A `Ptr` names an object rather than a machine address: an allocator that hands
out the address of a destroyed object again hands out a new name here.
-/

namespace SmartPointers

/-- Modulus of `size_t` arithmetic. -/
def SIZE : Nat := 2 ^ 64

/-- Raw addresses: `nullptr`, an address handed in by the caller, or the address
of the object embedded in the `MakeSharedObj` block with the given index. -/
inductive Ptr where
  | null : Ptr
  | addr (a : Nat) : Ptr
  | embedded (block : Nat) : Ptr
  deriving DecidableEq

/-- Control block: `StoredObject` with its subclasses `DefaultObj` and `MakeSharedObj`. -/
structure StoredObject where
  /-- The strong counter `size_t count`, returned by `GetCount()`. -/
  count : Nat
  /-- Modelled from the spec: the weak counter (`weak_count`) behind `GetWeakCount()`, which
  `weak_ptr.cpp` calls and the `StoredObject` of `shared_ptr.cpp` does not declare. -/
  weakCount : Nat
  /-- The stored pointer `ptr_`: the adopted object of a `DefaultObj`, `&obj` in a
  `MakeSharedObj`. -/
  ptr_ : Ptr
  /-- The embedded object `T obj` of a `MakeSharedObj`; `none` for a `DefaultObj`. -/
  obj : Option Int
  deriving DecidableEq

/-- Fields of a `SharedPtr<T>`: `T* ptr_` and `StoredObject* data_` (`none` is `nullptr`). -/
structure SharedPtr where
  ptr_ : Ptr
  data_ : Option Nat
  deriving DecidableEq

/-- Fields of a `WeakPtr<T>`. -/
structure WeakPtr where
  ptr_ : Ptr
  data_ : Option Nat
  deriving DecidableEq

/-- Program state. -/
structure State where
  heap : List StoredObject
  freed : List Nat
  deleted : List Ptr
  shared : List (Option SharedPtr)
  weak : List (Option WeakPtr)
  deriving DecidableEq

/-- No block, no instance. -/
def State.init : State :=
  { heap := [], freed := [], deleted := [], shared := [], weak := [] }

/-- Objects destroyed by the destructor of a control block: `~DefaultObj` deletes
`ptr_` when it is not null; a `MakeSharedObj` destroys its member `obj`. -/
def StoredObject.destroys (o : StoredObject) : List Ptr :=
  match o.obj with
  | some _ => [o.ptr_]
  | none => if o.ptr_ = Ptr.null then [] else [o.ptr_]

/-- Dereference of a `StoredObject*`: undefined once the block has been deleted. -/
def State.block (s : State) (d : Nat) : Option StoredObject :=
  if d ∈ s.freed then none else s.heap[d]?

/-- The value of `data_->GetCount()`. -/
def State.GetCount (s : State) (d : Nat) : Option Nat :=
  (s.block d).map fun o => o.count

/-- Modelled from the spec: the accessor `GetWeakCount()` of the control block, absent from the
`StoredObject` of `shared_ptr.cpp`; it reads the weak counter of the block. -/
def State.GetWeakCount (s : State) (d : Nat) : Option Nat :=
  (s.block d).map fun o => o.weakCount

/-- The statement `++data_->GetCount()`. -/
def State.incCount (s : State) (d : Nat) : Option State :=
  (s.block d).map fun o =>
    { s with heap := s.heap.set d { o with count := (o.count + 1) % SIZE } }

/-- The statement `--data_->GetCount()`. -/
def State.decCount (s : State) (d : Nat) : Option State :=
  (s.block d).map fun o =>
    { s with heap := s.heap.set d { o with count := (o.count + SIZE - 1) % SIZE } }

/-- The statement `data_->GetCount() = 1`. -/
def State.setCountOne (s : State) (d : Nat) : Option State :=
  (s.block d).map fun o =>
    { s with heap := s.heap.set d { o with count := 1 } }

/-- The statement `++data_->GetWeakCount()`. -/
def State.incWeak (s : State) (d : Nat) : Option State :=
  (s.block d).map fun o =>
    { s with heap := s.heap.set d { o with weakCount := (o.weakCount + 1) % SIZE } }

/-- The statement `--data_->GetWeakCount()`. -/
def State.decWeak (s : State) (d : Nat) : Option State :=
  (s.block d).map fun o =>
    { s with heap := s.heap.set d { o with weakCount := (o.weakCount + SIZE - 1) % SIZE } }

/-- The statement `delete data_`: runs the destructor of the block and frees it. -/
def State.deleteBlock (s : State) (d : Nat) : Option State :=
  (s.block d).map fun o =>
    { s with freed := d :: s.freed, deleted := o.destroys ++ s.deleted }

/-- The expression `new DefaultObj<T, V>(ptr)`: the new block has index `heap.length`. -/
def State.newDefaultObj (s : State) (ptr : Ptr) : State :=
  { s with heap := s.heap ++ [{ count := 0, weakCount := 0, ptr_ := ptr, obj := none }] }

/-- The expression `new MakeSharedObj<T>(el, ptr)`: `ptr_ = &obj`. -/
def State.newMakeSharedObj (s : State) (el : Int) : State :=
  { s with heap := s.heap ++
      [{ count := 0, weakCount := 0, ptr_ := Ptr.embedded s.heap.length, obj := some el }] }

/-- The live `SharedPtr` instance number `i`. -/
def State.sharedAt (s : State) (i : Nat) : Option SharedPtr :=
  match s.shared[i]? with
  | some (some p) => some p
  | _ => none

/-- Overwrite the fields of instance `i`. -/
def State.setShared (s : State) (i : Nat) (p : SharedPtr) : State :=
  { s with shared := s.shared.set i (some p) }

/-- A newly constructed instance; its number is `shared.length`. -/
def State.newShared (s : State) (p : SharedPtr) : State :=
  { s with shared := s.shared ++ [some p] }

/-- End of the lifetime of instance `i`. -/
def State.endShared (s : State) (i : Nat) : State :=
  { s with shared := s.shared.set i none }

/-- The live `WeakPtr` instance number `i`. -/
def State.weakAt (s : State) (i : Nat) : Option WeakPtr :=
  match s.weak[i]? with
  | some (some p) => some p
  | _ => none

/-- Overwrite the fields of weak instance `i`. -/
def State.setWeak (s : State) (i : Nat) (p : WeakPtr) : State :=
  { s with weak := s.weak.set i (some p) }

/-- A newly constructed weak instance; its number is `weak.length`. -/
def State.newWeak (s : State) (p : WeakPtr) : State :=
  { s with weak := s.weak ++ [some p] }

/-- End of the lifetime of weak instance `i`. -/
def State.endWeak (s : State) (i : Nat) : State :=
  { s with weak := s.weak.set i none }

/-! ## `SharedPtr` -/

/-- `SharedPtr()`. -/
def SharedPtr.ctorDefault (s : State) : State :=
  s.newShared { ptr_ := Ptr.null, data_ := none }

/-- `SharedPtr(std::nullptr_t)`. -/
def SharedPtr.ctorNull (s : State) : State :=
  s.newShared { ptr_ := Ptr.null, data_ := none }

/-- `explicit SharedPtr(V* ptr)`. -/
def SharedPtr.ctorRaw (s : State) (ptr : Ptr) : Option State :=
  let d := s.heap.length
  ((s.newDefaultObj ptr).newShared { ptr_ := ptr, data_ := some d }).incCount d

/-- `SharedPtr(const SharedPtr& other)`; `j` is the number of `other`. -/
def SharedPtr.copyCtor (s : State) (j : Nat) : Option State := do
  let other ← s.sharedAt j
  match other.data_ with
  | none => some (s.newShared { ptr_ := Ptr.null, data_ := none })
  | some d => (s.newShared { ptr_ := other.ptr_, data_ := some d }).incCount d

/-- `SharedPtr(SharedPtr&& other)`. -/
def SharedPtr.moveCtor (s : State) (j : Nat) : Option State := do
  let other ← s.sharedAt j
  match other.data_ with
  | none =>
    some ((s.setShared j { other with ptr_ := Ptr.null }).newShared
      { ptr_ := Ptr.null, data_ := none })
  | some d =>
    some ((s.setShared j { ptr_ := Ptr.null, data_ := none }).newShared
      { ptr_ := other.ptr_, data_ := some d })

/-- `template <class F> SharedPtr(const SharedPtr<F>& other)`. -/
def SharedPtr.copyCtorConv (s : State) (j : Nat) : Option State := do
  let other ← s.sharedAt j
  match other.data_ with
  | none => some (s.newShared { ptr_ := Ptr.null, data_ := none })
  | some d => (s.newShared { ptr_ := other.ptr_, data_ := some d }).incCount d

/-- `template <class F> SharedPtr(SharedPtr<F>&& other)`. -/
def SharedPtr.moveCtorConv (s : State) (j : Nat) : Option State := do
  let other ← s.sharedAt j
  match other.data_ with
  | none =>
    some ((s.setShared j { ptr_ := Ptr.null, data_ := none }).newShared
      { ptr_ := Ptr.null, data_ := none })
  | some d =>
    some ((s.setShared j { ptr_ := Ptr.null, data_ := none }).newShared
      { ptr_ := other.ptr_, data_ := some d })

/-- Aliasing constructor `SharedPtr(const SharedPtr<Y>& other, T* ptr)`:
`++data_->GetCount()` is executed without a null check. -/
def SharedPtr.aliasCtor (s : State) (j : Nat) (ptr : Ptr) : Option State := do
  let other ← s.sharedAt j
  let d ← other.data_
  (s.newShared { ptr_ := ptr, data_ := some d }).incCount d

/-- `SharedPtr& operator=(const SharedPtr& other)`; `i` is `this`, `j` is `other`. -/
def SharedPtr.copyAssign (s : State) (i j : Nat) : Option State := do
  let self ← s.sharedAt i
  let other ← s.sharedAt j
  if i = j then
    some s
  else
    match self.data_ with
    | none =>
      let s1 := s.setShared i { ptr_ := other.ptr_, data_ := other.data_ }
      match other.data_ with
      | some d => s1.incCount d
      | none => some s1
    | some d0 =>
      let s1 ← s.decCount d0
      let c ← s1.GetCount d0
      let s2 ← if c = 0 then s1.deleteBlock d0 else some s1
      let s3 := s2.setShared i { ptr_ := other.ptr_, data_ := other.data_ }
      match other.data_ with
      | some d => s3.incCount d
      | none => some s3

/-- `SharedPtr& operator=(SharedPtr&& other)`. -/
def SharedPtr.moveAssign (s : State) (i j : Nat) : Option State := do
  let self ← s.sharedAt i
  let other ← s.sharedAt j
  if i = j then
    some s
  else
    match self.data_ with
    | none =>
      let s1 := (s.setShared i { ptr_ := other.ptr_, data_ := other.data_ }).setShared j
        { ptr_ := Ptr.null, data_ := none }
      match other.data_ with
      | some d => s1.incCount d
      | none => some s1
    | some d0 =>
      let s1 ← s.decCount d0
      let c ← s1.GetCount d0
      let s2 ← if c = 0 then s1.deleteBlock d0 else some s1
      some ((s2.setShared i { ptr_ := other.ptr_, data_ := other.data_ }).setShared j
        { ptr_ := Ptr.null, data_ := none })

/-- `~SharedPtr()`. -/
def SharedPtr.dtor (s : State) (i : Nat) : Option State := do
  let self ← s.sharedAt i
  match self.data_ with
  | none => some (s.endShared i)
  | some d =>
    let s1 ← s.decCount d
    let c ← s1.GetCount d
    let s2 ← if c = 0 then s1.deleteBlock d else some s1
    some (s2.endShared i)

/-- `void Reset()`. -/
def SharedPtr.Reset (s : State) (i : Nat) : Option State := do
  let self ← s.sharedAt i
  match self.data_ with
  | none => some s
  | some d =>
    let s1 ← s.decCount d
    let c ← s1.GetCount d
    let s2 ← if c = 0 then s1.deleteBlock d else some s1
    some (s2.setShared i { ptr_ := Ptr.null, data_ := none })

/-- `template <class V> void Reset(V* ptr)`. -/
def SharedPtr.ResetPtr (s : State) (i : Nat) (ptr : Ptr) : Option State := do
  let self ← s.sharedAt i
  match self.data_ with
  | none =>
    let d := s.heap.length
    ((s.newDefaultObj ptr).setShared i { ptr_ := ptr, data_ := some d }).setCountOne d
  | some d0 =>
    let s1 ← s.decCount d0
    let c ← s1.GetCount d0
    let s2 ← if c = 0 ∧ self.ptr_ ≠ ptr then s1.deleteBlock d0 else some s1
    let d := s2.heap.length
    ((s2.newDefaultObj ptr).setShared i { ptr_ := ptr, data_ := some d }).setCountOne d

/-- `void Swap(SharedPtr& other)`. -/
def SharedPtr.Swap (s : State) (i j : Nat) : Option State := do
  let self ← s.sharedAt i
  let other ← s.sharedAt j
  some ((s.setShared i other).setShared j self)

/-- `T* Get() const`. -/
def SharedPtr.Get (p : SharedPtr) : Ptr :=
  match p.data_ with
  | none => Ptr.null
  | some _ => p.ptr_

/-- `size_t UseCount() const`. -/
def SharedPtr.UseCount (s : State) (p : SharedPtr) : Option Nat :=
  match p.data_ with
  | none => some 0
  | some d => s.GetCount d

/-- `explicit operator bool() const`. -/
def SharedPtr.toBool (p : SharedPtr) : Bool :=
  p.data_.isSome && decide (p.ptr_ ≠ Ptr.null)

/-- `operator==(const SharedPtr<T>&, const SharedPtr<U>&)`. -/
def SharedPtr.eq (left right : SharedPtr) : Bool :=
  decide (left.Get = right.Get)

/-- `MakeShared<T>(args...)`; `el` is the value `T(args...)`. -/
def MakeShared (s : State) (el : Int) : Option State :=
  let d := s.heap.length
  ((s.newMakeSharedObj el).newShared { ptr_ := Ptr.embedded d, data_ := some d }).incCount d

/-- `Get()` of instance `i`. -/
def State.Get (s : State) (i : Nat) : Option Ptr :=
  (s.sharedAt i).map SharedPtr.Get

/-- `UseCount()` of instance `i`. -/
def State.UseCount (s : State) (i : Nat) : Option Nat :=
  (s.sharedAt i).bind (SharedPtr.UseCount s)

/-- Boolean conversion of instance `i`. -/
def State.toBool (s : State) (i : Nat) : Option Bool :=
  (s.sharedAt i).map SharedPtr.toBool

/-! ## `WeakPtr` -/

/-- `WeakPtr()`. -/
def WeakPtr.ctorDefault (s : State) : State :=
  s.newWeak { ptr_ := Ptr.null, data_ := none }

/-- `WeakPtr(const WeakPtr& other)`. -/
def WeakPtr.copyCtor (s : State) (j : Nat) : Option State := do
  let other ← s.weakAt j
  let s1 := s.newWeak { ptr_ := other.ptr_, data_ := other.data_ }
  match other.data_ with
  | some d => s1.incWeak d
  | none => some s1

/-- `WeakPtr(WeakPtr&& other)`. -/
def WeakPtr.moveCtor (s : State) (j : Nat) : Option State := do
  let other ← s.weakAt j
  some ((s.setWeak j { ptr_ := Ptr.null, data_ := none }).newWeak
    { ptr_ := other.ptr_, data_ := other.data_ })

/-- `WeakPtr(const SharedPtr<T>& other)`; `j` is the number of the `SharedPtr`. -/
def WeakPtr.fromShared (s : State) (j : Nat) : Option State := do
  let other ← s.sharedAt j
  let s1 := s.newWeak { ptr_ := other.ptr_, data_ := other.data_ }
  match other.data_ with
  | some d => s1.incWeak d
  | none => some s1

/-- The sequence `--data_->GetWeakCount(); if (data_->GetCount() + data_->GetWeakCount() == 0)
delete data_;` shared by the assignments, the destructor and `Reset` of `WeakPtr`. -/
def WeakPtr.release (s : State) (d : Nat) : Option State := do
  let s1 ← s.decWeak d
  let c ← s1.GetCount d
  let w ← s1.GetWeakCount d
  if (c + w) % SIZE = 0 then s1.deleteBlock d else some s1

/-- `WeakPtr& operator=(const WeakPtr& other)`. -/
def WeakPtr.copyAssign (s : State) (i j : Nat) : Option State := do
  let self ← s.weakAt i
  let other ← s.weakAt j
  if i = j then
    some s
  else
    let s1 ← match self.data_ with
      | some d0 => WeakPtr.release s d0
      | none => some s
    let s2 := s1.setWeak i { ptr_ := other.ptr_, data_ := other.data_ }
    match other.data_ with
    | some d => s2.incWeak d
    | none => some s2

/-- `WeakPtr& operator=(WeakPtr&& other)`. -/
def WeakPtr.moveAssign (s : State) (i j : Nat) : Option State := do
  let self ← s.weakAt i
  let other ← s.weakAt j
  if i = j then
    some s
  else
    let s1 ← match self.data_ with
      | some d0 => WeakPtr.release s d0
      | none => some s
    some ((s1.setWeak i { ptr_ := other.ptr_, data_ := other.data_ }).setWeak j
      { ptr_ := Ptr.null, data_ := none })

/-- `~WeakPtr()`. -/
def WeakPtr.dtor (s : State) (i : Nat) : Option State := do
  let self ← s.weakAt i
  match self.data_ with
  | none => some (s.endWeak i)
  | some d =>
    let s1 ← WeakPtr.release s d
    some (s1.endWeak i)

/-- `void Reset()`: the guard tests `ptr_`, the body dereferences `data_`. -/
def WeakPtr.Reset (s : State) (i : Nat) : Option State := do
  let self ← s.weakAt i
  if self.ptr_ = Ptr.null then
    some s
  else
    let d ← self.data_
    let s1 ← WeakPtr.release s d
    some (s1.setWeak i { ptr_ := Ptr.null, data_ := none })

/-- `void Swap(WeakPtr& other)`. -/
def WeakPtr.Swap (s : State) (i j : Nat) : Option State := do
  let self ← s.weakAt i
  let other ← s.weakAt j
  some ((s.setWeak i other).setWeak j self)

/-- `size_t UseCount() const`. -/
def WeakPtr.UseCount (s : State) (w : WeakPtr) : Option Nat :=
  match w.data_ with
  | none => some 0
  | some d => s.GetCount d

/-- Modelled from the spec: the promoting constructor `SharedPtr(const WeakPtr<T>&)`, which
`Lock` calls and `shared_ptr.cpp` only announces in a comment: a new strong owner sharing the
block of the `WeakPtr`, with the strong count incremented. -/
def SharedPtr.fromWeak (s : State) (w : WeakPtr) : Option State := do
  let d ← w.data_
  (s.newShared { ptr_ := w.ptr_, data_ := some d }).incCount d

/-- `SharedPtr<T> Lock() const`; the result is the newest `SharedPtr` instance. -/
def WeakPtr.Lock (s : State) (i : Nat) : Option State := do
  let self ← s.weakAt i
  match self.data_ with
  | none => some (SharedPtr.ctorDefault s)
  | some d =>
    let c ← s.GetCount d
    if c = 0 then some (SharedPtr.ctorDefault s) else SharedPtr.fromWeak s self

/-! ## Runs of `SharedPtr` operations -/

/-- The operations on `SharedPtr` a program can execute. -/
inductive Op where
  | ctorDefault : Op
  | ctorNull : Op
  | ctorRaw (ptr : Ptr) : Op
  | makeShared (el : Int) : Op
  | copyCtor (j : Nat) : Op
  | moveCtor (j : Nat) : Op
  | copyCtorConv (j : Nat) : Op
  | moveCtorConv (j : Nat) : Op
  | aliasCtor (j : Nat) (ptr : Ptr) : Op
  | copyAssign (i j : Nat) : Op
  | moveAssign (i j : Nat) : Op
  | dtor (i : Nat) : Op
  | reset (i : Nat) : Op
  | resetPtr (i : Nat) (ptr : Ptr) : Op
  | swap (i j : Nat) : Op
  deriving DecidableEq

/-- Effect of one operation. -/
def step (s : State) : Op → Option State
  | Op.ctorDefault => some (SharedPtr.ctorDefault s)
  | Op.ctorNull => some (SharedPtr.ctorNull s)
  | Op.ctorRaw ptr => SharedPtr.ctorRaw s ptr
  | Op.makeShared el => MakeShared s el
  | Op.copyCtor j => SharedPtr.copyCtor s j
  | Op.moveCtor j => SharedPtr.moveCtor s j
  | Op.copyCtorConv j => SharedPtr.copyCtorConv s j
  | Op.moveCtorConv j => SharedPtr.moveCtorConv s j
  | Op.aliasCtor j ptr => SharedPtr.aliasCtor s j ptr
  | Op.copyAssign i j => SharedPtr.copyAssign s i j
  | Op.moveAssign i j => SharedPtr.moveAssign s i j
  | Op.dtor i => SharedPtr.dtor s i
  | Op.reset i => SharedPtr.Reset s i
  | Op.resetPtr i ptr => SharedPtr.ResetPtr s i ptr
  | Op.swap i j => SharedPtr.Swap s i j

/-- Effect of a sequence of operations, from left to right. -/
def run (s : State) : List Op → Option State
  | [] => some s
  | op :: ops => (step s op).bind fun s1 => run s1 ops

/-- Number of live `SharedPtr` instances whose `data_` is block `d`. -/
def State.refs (s : State) (d : Nat) : Nat :=
  s.shared.countP fun x => decide (x.bind SharedPtr.data_ = some d)

/-- A raw pointer that may be adopted without adopting an object twice: null, or a caller
address that no control block of the heap, deleted or not, stores. -/
def State.Adoptable (s : State) (ptr : Ptr) : Prop :=
  ptr = Ptr.null ∨ ((∃ a, ptr = Ptr.addr a) ∧ ∀ o ∈ s.heap, o.ptr_ ≠ ptr)

/-- The pointers an operation adopts are adoptable. -/
def Op.Fresh (s : State) : Op → Prop
  | Op.ctorRaw ptr => s.Adoptable ptr
  | Op.resetPtr _ ptr => s.Adoptable ptr
  | _ => True

/-- States reached from the initial state in `n` operations, none of which has undefined
behaviour or adopts a raw pointer twice. -/
inductive Reach : Nat → State → Prop where
  | init : Reach 0 State.init
  | step {n : Nat} {s s1 : State} (op : Op) :
      Reach n s → op.Fresh s → step s op = some s1 → Reach (n + 1) s1

/-! ## Dereference and decrements -/

/-- `T& operator*() const`: the value of `*ptr_`.  The state records the value of the objects
embedded in a `MakeSharedObj` only; the embedded object lives as long as its block, and the
contents of an object allocated by the caller are not part of the state (`none`). -/
def SharedPtr.deref (s : State) (p : SharedPtr) : Option Int :=
  match p.ptr_ with
  | Ptr.embedded d => (s.block d).bind fun o => o.obj
  | _ => none

/-- The value of `*p` for instance `i`. -/
def State.deref (s : State) (i : Nat) : Option Int :=
  (s.sharedAt i).bind (SharedPtr.deref s)

/-- The blocks held by the live `SharedPtr` instances, one entry per instance. -/
def State.held (s : State) : List Nat :=
  s.shared.filterMap fun x => x.bind SharedPtr.data_

/-- Well-formed states: every strong counter is a `size_t` value, only allocated blocks have
been deleted, and every block held by a live `SharedPtr` is still allocated, its counter
being at least the number of live instances that hold it. -/
def State.Valid (s : State) : Prop :=
  (∀ o ∈ s.heap, o.count < SIZE) ∧ (∀ d ∈ s.freed, d < s.heap.length) ∧
    ∀ d ∈ s.held, s.refs d ≤ (s.GetCount d).getD 0

instance (s : State) : Decidable s.Valid := by
  unfold State.Valid
  infer_instance

/-- Heap cell `d` with its strong counter replaced by `c`. -/
def State.putCount (s : State) (d : Nat) (o : StoredObject) (c : Nat) : State :=
  { s with heap := s.heap.set d { o with count := c } }

/-- Result of a copy construction from a non-empty instance `j` holding block `d` of count `c`. -/
def CopySharesPost (s : State) (j d c : Nat) (r : Option State) : Prop :=
  ∃ s1, r = some s1 ∧ s1.sharedAt j = s.sharedAt j ∧
    (s1.sharedAt s.shared.length).map SharedPtr.data_ = some (some d) ∧
    s1.Get s.shared.length = s.Get j ∧
    s1.GetCount d = some (c + 1) ∧ s1.UseCount s.shared.length = some (c + 1) ∧
    ∀ k, k ≠ d → s1.GetCount k = s.GetCount k

/-- Result of a copy construction from an empty instance `j`. -/
def CopyEmptyPost (s : State) (j : Nat) (r : Option State) : Prop :=
  ∃ s1, r = some s1 ∧ s1.sharedAt j = s.sharedAt j ∧
    s1.Get s.shared.length = some Ptr.null ∧ s1.UseCount s.shared.length = some 0 ∧
    ∀ k, s1.GetCount k = s.GetCount k

/-- State after the release sequence `--data_->GetCount(); if (...) delete data_;` on block `d`
with contents `o`; `del` tells whether the `delete` is executed. -/
def State.dropCount (s : State) (d : Nat) (o : StoredObject) (del : Bool) : State :=
  if del then
    { s.putCount d o (o.count - 1) with freed := d :: s.freed, deleted := o.destroys ++ s.deleted }
  else s.putCount d o (o.count - 1)

/-- Result of a move construction from instance `j` in state `s`. -/
def MoveCtorPost (s : State) (j : Nat) (r : Option State) : Prop :=
  ∃ s1, r = some s1 ∧
    s1.Get s.shared.length = s.Get j ∧
    s1.UseCount s.shared.length = s.UseCount j ∧
    (∀ d, s1.GetCount d = s.GetCount d) ∧
    s1.Get j = some Ptr.null ∧ s1.UseCount j = some 0 ∧ s1.toBool j = some false

/-- The pointer stored in each control block, in allocation order. -/
def State.ptrs (s : State) : List Ptr := s.heap.map StoredObject.ptr_

/-- The objects each control block destroys when it is deleted, in allocation order. -/
def State.owned (s : State) : List (List Ptr) := s.heap.map StoredObject.destroys

/-- Invariant of the heap: only allocated blocks have been deleted, embedded-object addresses
belong to allocated blocks, no object is owned by two blocks, and the destroyed objects are
exactly accounted for by the deleted blocks, each at most once. -/
structure HeapInv (s : State) : Prop where
  freed_lt : ∀ d ∈ s.freed, d < s.heap.length
  emb_lt : ∀ (d c : Nat), s.ptrs[d]? = some (Ptr.embedded c) → c < s.heap.length
  own_inj : ∀ (d1 d2 : Nat) (l1 l2 : List Ptr) (x : Ptr),
    s.owned[d1]? = some l1 → s.owned[d2]? = some l2 → x ∈ l1 → x ∈ l2 → d1 = d2
  deleted_src : ∀ x ∈ s.deleted, ∃ d ∈ s.freed, ∃ l, s.owned[d]? = some l ∧ x ∈ l
  deleted_nodup : s.deleted.Nodup

/-- Invariant of the states reached in at most `n` operations. -/
structure Inv (n : Nat) (s : State) : Prop where
  heapInv : HeapInv s
  refs_le : ∀ d, s.refs d ≤ (s.GetCount d).getD 0
  count_le : ∀ (d : Nat) (o : StoredObject), s.heap[d]? = some o → o.count ≤ n

/-- Aliasing scenario: `sub = SharedPtr(owner, ptr)` built from instance `j`, which holds block
`d` with contents `o` and strong count `n`; then `owner` is destroyed, then `sub`. -/
def AliasPost (s : State) (j d n : Nat) (o : StoredObject) (ptr : Ptr) : Prop :=
  ∃ s1 s2 s3,
    SharedPtr.aliasCtor s j ptr = some s1 ∧
    s1.Get s.shared.length = some ptr ∧
    (s1.sharedAt s.shared.length).map SharedPtr.data_ = some (some d) ∧
    s1.UseCount s.shared.length = some (n + 1) ∧ s1.UseCount j = some (n + 1) ∧
    SharedPtr.dtor s1 j = some s2 ∧
    s2.UseCount s.shared.length = some n ∧ s2.Get s.shared.length = some ptr ∧
    s2.freed = s.freed ∧ s2.deleted = s.deleted ∧
    SharedPtr.dtor s2 s.shared.length = some s3 ∧
    (n = 1 → s3.freed = d :: s.freed ∧ s3.deleted = o.destroys ++ s.deleted) ∧
    (n ≠ 1 → s3.freed = s.freed ∧ s3.deleted = s.deleted ∧ s3.GetCount d = some (n - 1))

/-- Result `s1` of `p.Reset(q)` executed in state `s` on instance `i` with fields `p`. -/
def ResetPtrPost (s : State) (i : Nat) (p : SharedPtr) (q : Ptr) (s1 : State) : Prop :=
  s1.UseCount i = some 1 ∧ s1.Get i = some q ∧
  (s1.sharedAt i).map SharedPtr.data_ = some (some s.heap.length) ∧
  s.heap[s.heap.length]? = none ∧ p.data_ ≠ some s.heap.length ∧
  (∀ k, k ≠ i → s1.sharedAt k = s.sharedAt k) ∧
  (∀ k pk, k ≠ i → s.sharedAt k = some pk → pk.data_ ≠ none → pk.data_ = p.data_ →
    ∃ m, s.UseCount k = some (m + 1) ∧ s1.UseCount k = some m) ∧
  (∀ k pk, k ≠ i → s.sharedAt k = some pk → pk.data_ ≠ p.data_ →
    s1.UseCount k = s.UseCount k)

/-! ### Concrete states and runs -/

/-- One `SharedPtr` (instance 0) owning the object at address 1 through block 0. -/
def exOne : State :=
  { heap := [{ count := 1, weakCount := 0, ptr_ := Ptr.addr 1, obj := none }],
    freed := [], deleted := [],
    shared := [some { ptr_ := Ptr.addr 1, data_ := some 0 }], weak := [] }

/-- Instance 0 is the sole owner of block 0; instances 1 and 2 share block 1; instance 3 is
empty. -/
def exMixed : State :=
  { heap := [{ count := 1, weakCount := 0, ptr_ := Ptr.addr 1, obj := none },
             { count := 2, weakCount := 0, ptr_ := Ptr.addr 2, obj := none }],
    freed := [], deleted := [],
    shared := [some { ptr_ := Ptr.addr 1, data_ := some 0 },
               some { ptr_ := Ptr.addr 2, data_ := some 1 },
               some { ptr_ := Ptr.addr 2, data_ := some 1 },
               some { ptr_ := Ptr.null, data_ := none }],
    weak := [] }

/-- The run `p = SharedPtr(x); q = p; q.Reset(); q = std::move(p);`. -/
def runMoveIntoReset : List Op :=
  [Op.ctorRaw (Ptr.addr 1), Op.copyCtor 0, Op.reset 1, Op.moveAssign 1 0]

/-- The run `p = SharedPtr(x); SharedPtr q;`. -/
def runOwnerAndEmpty : List Op :=
  [Op.ctorRaw (Ptr.addr 1), Op.ctorDefault]

/-- The program `a = SharedPtr((T*)nullptr); w = WeakPtr(a);`. -/
def runWeakOfNull : Option State := do
  let s1 ← SharedPtr.ctorRaw State.init Ptr.null
  WeakPtr.fromShared s1 0

/-- The run `owner = MakeShared(v); sub = SharedPtr(owner, ptr);` with `ptr` another address. -/
def runOwnerAndAlias : List Op :=
  [Op.makeShared 5, Op.aliasCtor 0 (Ptr.addr 3)]

/-- The scenario `a = MakeShared<T>(v); b = a; a.Reset();` started in state `s`: `a` is instance
`s.shared.length`, `b` the next one, and the new block has index `s.heap.length`. -/
def MakeSharedScenario (s : State) (v : Int) : Prop :=
  ∃ s1 s2 s3,
    MakeShared s v = some s1 ∧
    s1.UseCount s.shared.length = some 1 ∧
    s1.Get s.shared.length = some (Ptr.embedded s.heap.length) ∧
    s1.block s.heap.length =
      some { count := 1, weakCount := 0, ptr_ := Ptr.embedded s.heap.length, obj := some v } ∧
    s1.deref s.shared.length = some v ∧
    SharedPtr.copyCtor s1 s.shared.length = some s2 ∧
    SharedPtr.Reset s2 s.shared.length = some s3 ∧
    s3.Get s.shared.length = some Ptr.null ∧ s3.UseCount s.shared.length = some 0 ∧
    s3.toBool s.shared.length = some false ∧
    s3.UseCount (s.shared.length + 1) = some 1 ∧
    s3.Get (s.shared.length + 1) = some (Ptr.embedded s.heap.length) ∧
    s3.deref (s.shared.length + 1) = some v ∧
    s3.block s.heap.length =
      some { count := 1, weakCount := 0, ptr_ := Ptr.embedded s.heap.length, obj := some v } ∧
    s3.freed = s.freed ∧ s3.deleted = s.deleted

/-- Heap cell `d` with its weak counter replaced by `w`. -/
def State.putWeak (s : State) (d : Nat) (o : StoredObject) (w : Nat) : State :=
  { s with heap := s.heap.set d { o with weakCount := w } }

/-- Demotion and promotion: `weak = WeakPtr(p)` for the instance `j`, which holds block `d` with
strong count `n`, followed by `locked = weak.Lock()`. -/
def DemoteLockPost (s : State) (j d n : Nat) (p : SharedPtr) : Prop :=
  ∃ s1 s2,
    WeakPtr.fromShared s j = some s1 ∧
    s1.GetCount d = some n ∧ s1.sharedAt j = some p ∧ s1.UseCount j = some n ∧
    s1.weakAt s.weak.length = some { ptr_ := p.ptr_, data_ := some d } ∧
    WeakPtr.Lock s1 s.weak.length = some s2 ∧
    s2.sharedAt s.shared.length = some { ptr_ := p.ptr_, data_ := some d } ∧
    s2.Get s.shared.length = s.Get j ∧ s2.Get s.shared.length = some p.ptr_ ∧
    s2.GetCount d = some (n + 1) ∧ s2.UseCount s.shared.length = some (n + 1) ∧
    s2.UseCount j = some (n + 1)

/-- What `w.Lock()` returns for the `WeakPtr` `w` (instance `i`) in state `s`: the empty
`SharedPtr()` when `w` has no block or the strong count of its block is zero, otherwise a new
instance holding the block of `w`, the strong count being one higher. -/
def LockPost (s : State) (i : Nat) (w : WeakPtr) : Prop :=
  (w.data_ = none → WeakPtr.Lock s i = some (SharedPtr.ctorDefault s)) ∧
  (∀ d, w.data_ = some d → s.GetCount d = some 0 →
    WeakPtr.Lock s i = some (SharedPtr.ctorDefault s)) ∧
  (∀ d c, w.data_ = some d → s.GetCount d = some c → c ≠ 0 → c + 1 < SIZE →
    ∃ s1, WeakPtr.Lock s i = some s1 ∧
      s1.sharedAt s.shared.length = some { ptr_ := w.ptr_, data_ := some d } ∧
      s1.GetCount d = some (c + 1)) ∧
  (SharedPtr.ctorDefault s).sharedAt s.shared.length =
    some { ptr_ := Ptr.null, data_ := none }

/-- Every live `SharedPtr` without a block has a null raw pointer. -/
def State.Tidy (s : State) : Prop :=
  ∀ x ∈ s.shared, ∀ p : SharedPtr, x = some p → p.data_ = none → p.ptr_ = Ptr.null

/-- One `SharedPtr` built from a null raw pointer: it holds block 0 and observes `nullptr`. -/
def exNull : State :=
  { heap := [{ count := 1, weakCount := 0, ptr_ := Ptr.null, obj := none }],
    freed := [], deleted := [],
    shared := [some { ptr_ := Ptr.null, data_ := some 0 }], weak := [] }

/-- One `SharedPtr` and one `WeakPtr` on block 0, and an empty `WeakPtr`. -/
def exWeak : State :=
  { heap := [{ count := 1, weakCount := 1, ptr_ := Ptr.addr 1, obj := none }],
    freed := [], deleted := [],
    shared := [some { ptr_ := Ptr.addr 1, data_ := some 0 }],
    weak := [some { ptr_ := Ptr.addr 1, data_ := some 0 },
             some { ptr_ := Ptr.null, data_ := none }] }

/-! ## Lemmas -/

theorem GetCount_congr {s s1 : State} (h1 : s1.heap = s.heap) (h2 : s1.freed = s.freed) (d : Nat) :
    s1.GetCount d = s.GetCount d := by
  simp [State.GetCount, State.block, h1, h2]

theorem block_eq_some {s : State} {d : Nat} {o : StoredObject} :
    s.block d = some o ↔ d ∉ s.freed ∧ s.heap[d]? = some o := by
  unfold State.block
  by_cases h : d ∈ s.freed <;> simp [h]

theorem sharedAt_eq_some {s : State} {i : Nat} {p : SharedPtr} :
    s.sharedAt i = some p ↔ s.shared[i]? = some (some p) := by
  unfold State.sharedAt
  split
  · next q h => simp [h]
  · next h =>
    constructor
    · intro h1; cases h1
    · intro h1; exact absurd h1 (h p)

theorem sharedAt_lt {s : State} {i : Nat} {p : SharedPtr} (h : s.sharedAt i = some p) :
    i < s.shared.length := by
  rw [sharedAt_eq_some] at h
  exact (List.getElem?_eq_some.mp h).1

@[simp] theorem sharedAt_newShared_self (s : State) (p : SharedPtr) :
    (s.newShared p).sharedAt s.shared.length = some p := by
  simp [sharedAt_eq_some, State.newShared]

theorem sharedAt_newShared_of_lt (s : State) (p : SharedPtr) {i : Nat} (h : i < s.shared.length) :
    (s.newShared p).sharedAt i = s.sharedAt i := by
  simp [State.sharedAt, State.newShared, List.getElem?_append_left h]

@[simp] theorem sharedAt_setShared_self (s : State) (p : SharedPtr) {i : Nat}
    (h : i < s.shared.length) : (s.setShared i p).sharedAt i = some p := by
  simp [sharedAt_eq_some, State.setShared, h]

theorem sharedAt_setShared_of_ne (s : State) (p : SharedPtr) {i k : Nat} (h : i ≠ k) :
    (s.setShared i p).sharedAt k = s.sharedAt k := by
  simp [State.sharedAt, State.setShared, List.getElem?_set_ne h]

theorem refs_newShared (s : State) (p : SharedPtr) (d : Nat) :
    (s.newShared p).refs d = s.refs d + (if p.data_ = some d then 1 else 0) := by
  simp [State.refs, State.newShared, List.countP_cons]

theorem refs_setShared {s : State} {i : Nat} {q : SharedPtr} (h : s.sharedAt i = some q)
    (p : SharedPtr) (d : Nat) :
    (s.setShared i p).refs d + (if q.data_ = some d then 1 else 0) =
      s.refs d + (if p.data_ = some d then 1 else 0) := by
  have hi := sharedAt_lt h
  rw [sharedAt_eq_some] at h
  have hq : s.shared[i] = some q := by
    have := List.getElem?_eq_some.mp h
    exact this.2
  have hpos : (if q.data_ = some d then 1 else 0) ≤ s.refs d := by
    split
    · next hd =>
      unfold State.refs
      apply List.countP_pos_iff.mpr
      exact ⟨some q, List.mem_iff_getElem?.mpr ⟨i, h⟩, by simp [hd]⟩
    · exact Nat.zero_le _
  unfold State.refs at *
  simp only [State.setShared, List.countP_set _ _ _ _ hi, hq]
  simp only [Option.some_bind, decide_eq_true_eq]
  omega

theorem refs_endShared {s : State} {i : Nat} {q : SharedPtr} (h : s.sharedAt i = some q)
    (d : Nat) :
    (s.endShared i).refs d + (if q.data_ = some d then 1 else 0) = s.refs d := by
  have hi := sharedAt_lt h
  rw [sharedAt_eq_some] at h
  have hq : s.shared[i] = some q := (List.getElem?_eq_some.mp h).2
  have hpos : (if q.data_ = some d then 1 else 0) ≤ s.refs d := by
    split
    · next hd =>
      unfold State.refs
      apply List.countP_pos_iff.mpr
      exact ⟨some q, List.mem_iff_getElem?.mpr ⟨i, h⟩, by simp [hd]⟩
    · exact Nat.zero_le _
  unfold State.refs at *
  simp only [State.endShared, List.countP_set _ _ _ _ hi, hq]
  simp only [Option.some_bind, Option.none_bind, decide_eq_true_eq]
  simp
  omega

theorem refs_pos {s : State} {i : Nat} {q : SharedPtr} {d : Nat} (h : s.sharedAt i = some q)
    (hd : q.data_ = some d) : 1 ≤ s.refs d := by
  have := refs_endShared h d
  simp [hd] at this
  omega

theorem refs_two {s : State} {i j : Nat} {p q : SharedPtr} {d : Nat} (hij : i ≠ j)
    (hp : s.sharedAt i = some p) (hq : s.sharedAt j = some q)
    (hpd : p.data_ = some d) (hqd : q.data_ = some d) : 2 ≤ s.refs d := by
  have h1 := refs_setShared hp { ptr_ := Ptr.null, data_ := none } d
  have h2 : (s.setShared i { ptr_ := Ptr.null, data_ := none }).sharedAt j = some q := by
    rw [sharedAt_setShared_of_ne _ _ hij]; exact hq
  have h3 := refs_pos h2 hqd
  simp [hpd] at h1
  omega

theorem valid_refs_le {s : State} (h : s.Valid) (d : Nat) :
    s.refs d ≤ (s.GetCount d).getD 0 := by
  by_cases h0 : s.refs d = 0
  · omega
  · apply h.2.2
    have : 0 < s.refs d := Nat.pos_of_ne_zero h0
    unfold State.refs at this
    obtain ⟨x, hx, hp⟩ := List.countP_pos_iff.mp this
    simp only [decide_eq_true_eq] at hp
    simp only [State.held, List.mem_filterMap]
    exact ⟨x, hx, hp⟩

theorem valid_block {s : State} (h : s.Valid) {i : Nat} {p : SharedPtr} {d : Nat}
    (hp : s.sharedAt i = some p) (hd : p.data_ = some d) :
    ∃ o, s.block d = some o ∧ 1 ≤ o.count ∧ o.count < SIZE ∧ s.refs d ≤ o.count := by
  have h1 := refs_pos hp hd
  have h2 := valid_refs_le h d
  unfold State.GetCount at h2
  cases hb : s.block d with
  | none => simp [hb] at h2; omega
  | some o =>
    simp [hb] at h2
    refine ⟨o, rfl, by omega, ?_, h2⟩
    exact h.1 o (List.mem_iff_getElem?.mpr ⟨d, (block_eq_some.mp hb).2⟩)

theorem incCount_eq {s : State} {d : Nat} {o : StoredObject} (h : s.block d = some o) :
    s.incCount d = some (s.putCount d o ((o.count + 1) % SIZE)) := by
  simp [State.incCount, h, State.putCount]

theorem decCount_eq {s : State} {d : Nat} {o : StoredObject} (h : s.block d = some o) :
    s.decCount d = some (s.putCount d o ((o.count + SIZE - 1) % SIZE)) := by
  simp [State.decCount, h, State.putCount]

theorem setCountOne_eq {s : State} {d : Nat} {o : StoredObject} (h : s.block d = some o) :
    s.setCountOne d = some (s.putCount d o 1) := by
  simp [State.setCountOne, h, State.putCount]

theorem deleteBlock_eq {s : State} {d : Nat} {o : StoredObject} (h : s.block d = some o) :
    s.deleteBlock d =
      some { s with freed := d :: s.freed, deleted := o.destroys ++ s.deleted } := by
  simp [State.deleteBlock, h]

theorem block_putCount {s : State} {d : Nat} {o : StoredObject} (h : s.block d = some o)
    (c k : Nat) :
    (s.putCount d o c).block k = if k = d then some { o with count := c } else s.block k := by
  obtain ⟨hf, hh⟩ := block_eq_some.mp h
  have hd : d < s.heap.length := (List.getElem?_eq_some.mp hh).1
  by_cases hk : k = d
  · subst hk
    simp [State.block, State.putCount, hf, hd]
  · simp [State.block, State.putCount, hk, List.getElem?_set_ne (Ne.symm hk)]

theorem GetCount_putCount {s : State} {d : Nat} {o : StoredObject} (h : s.block d = some o)
    (c k : Nat) :
    (s.putCount d o c).GetCount k = if k = d then some c else s.GetCount k := by
  unfold State.GetCount
  rw [block_putCount h]
  split <;> simp

@[simp] theorem putCount_shared (s : State) (d : Nat) (o : StoredObject) (c : Nat) :
    (s.putCount d o c).shared = s.shared := rfl

@[simp] theorem putCount_freed (s : State) (d : Nat) (o : StoredObject) (c : Nat) :
    (s.putCount d o c).freed = s.freed := rfl

@[simp] theorem putCount_deleted (s : State) (d : Nat) (o : StoredObject) (c : Nat) :
    (s.putCount d o c).deleted = s.deleted := rfl

@[simp] theorem putCount_sharedAt (s : State) (d : Nat) (o : StoredObject) (c i : Nat) :
    (s.putCount d o c).sharedAt i = s.sharedAt i := rfl

@[simp] theorem putCount_refs (s : State) (d : Nat) (o : StoredObject) (c k : Nat) :
    (s.putCount d o c).refs k = s.refs k := rfl

@[simp] theorem newShared_block (s : State) (p : SharedPtr) (d : Nat) :
    (s.newShared p).block d = s.block d := rfl

@[simp] theorem setShared_block (s : State) (i : Nat) (p : SharedPtr) (d : Nat) :
    (s.setShared i p).block d = s.block d := rfl

@[simp] theorem endShared_block (s : State) (i : Nat) (d : Nat) :
    (s.endShared i).block d = s.block d := rfl

@[simp] theorem newShared_GetCount (s : State) (p : SharedPtr) (d : Nat) :
    (s.newShared p).GetCount d = s.GetCount d := rfl

@[simp] theorem setShared_GetCount (s : State) (i : Nat) (p : SharedPtr) (d : Nat) :
    (s.setShared i p).GetCount d = s.GetCount d := rfl

@[simp] theorem endShared_GetCount (s : State) (i : Nat) (d : Nat) :
    (s.endShared i).GetCount d = s.GetCount d := rfl

@[simp] theorem setShared_freed (s : State) (i : Nat) (p : SharedPtr) :
    (s.setShared i p).freed = s.freed := rfl

@[simp] theorem setShared_deleted (s : State) (i : Nat) (p : SharedPtr) :
    (s.setShared i p).deleted = s.deleted := rfl

@[simp] theorem setShared_heap (s : State) (i : Nat) (p : SharedPtr) :
    (s.setShared i p).heap = s.heap := rfl

@[simp] theorem newShared_freed (s : State) (p : SharedPtr) :
    (s.newShared p).freed = s.freed := rfl

@[simp] theorem newShared_deleted (s : State) (p : SharedPtr) :
    (s.newShared p).deleted = s.deleted := rfl

@[simp] theorem newShared_heap (s : State) (p : SharedPtr) :
    (s.newShared p).heap = s.heap := rfl

@[simp] theorem endShared_freed (s : State) (i : Nat) :
    (s.endShared i).freed = s.freed := rfl

@[simp] theorem endShared_deleted (s : State) (i : Nat) :
    (s.endShared i).deleted = s.deleted := rfl

@[simp] theorem endShared_heap (s : State) (i : Nat) :
    (s.endShared i).heap = s.heap := rfl

@[simp] theorem setShared_length (s : State) (i : Nat) (p : SharedPtr) :
    (s.setShared i p).shared.length = s.shared.length := by
  simp [State.setShared]

@[simp] theorem endShared_length (s : State) (i : Nat) :
    (s.endShared i).shared.length = s.shared.length := by
  simp [State.endShared]

@[simp] theorem newShared_length (s : State) (p : SharedPtr) :
    (s.newShared p).shared.length = s.shared.length + 1 := by
  simp [State.newShared]

@[simp] theorem putCount_heap_length (s : State) (d : Nat) (o : StoredObject) (c : Nat) :
    (s.putCount d o c).heap.length = s.heap.length := by
  simp [State.putCount]

theorem putCount_heap {s : State} {d : Nat} {o : StoredObject} (h : s.heap[d]? = some o)
    (c k : Nat) :
    (s.putCount d o c).heap[k]? = if k = d then some { o with count := c } else s.heap[k]? := by
  have hd : d < s.heap.length := (List.getElem?_eq_some.mp h).1
  by_cases hk : k = d
  · subst hk; simp [State.putCount, hd]
  · simp [State.putCount, hk, List.getElem?_set_ne (Ne.symm hk)]

theorem GetCount_of_block {s : State} {d : Nat} {o : StoredObject} (h : s.block d = some o) :
    s.GetCount d = some o.count := by
  simp [State.GetCount, h]

theorem GetCount_eq_some {s : State} {d c : Nat} (h : s.GetCount d = some c) :
    ∃ o, s.block d = some o ∧ o.count = c := by
  unfold State.GetCount at h
  cases hb : s.block d with
  | none => simp [hb] at h
  | some o => simp [hb] at h; exact ⟨o, rfl, h⟩

theorem dec_mod {c : Nat} (h1 : 1 ≤ c) (h2 : c < SIZE) : (c + SIZE - 1) % SIZE = c - 1 := by
  have : c + SIZE - 1 = (c - 1) + SIZE := by omega
  rw [this, Nat.add_mod_right, Nat.mod_eq_of_lt (by omega)]

/-- Closed form of the release sequence followed by a continuation `k`. -/
theorem release_bind {α : Type} {s : State} {d : Nat} {o : StoredObject}
    (h : s.block d = some o) (h1 : 1 ≤ o.count) (h2 : o.count < SIZE)
    (k : State → Option α) :
    ((s.decCount d).bind fun s1 => (s1.GetCount d).bind fun c =>
      if c = 0 then (s1.deleteBlock d).bind k else k s1) =
    k (s.dropCount d o (decide (o.count = 1))) := by
  rw [decCount_eq h, dec_mod h1 h2]
  simp only [Option.some_bind]
  rw [GetCount_putCount h]
  simp only [if_true, Option.some_bind]
  have hb : (s.putCount d o (o.count - 1)).block d = some { o with count := o.count - 1 } := by
    rw [block_putCount h]; simp
  by_cases hx : o.count = 1
  · have : o.count - 1 = 0 := by omega
    rw [if_pos this, deleteBlock_eq hb]
    simp [State.dropCount, hx, StoredObject.destroys]
  · have : ¬ (o.count - 1 = 0) := by omega
    rw [if_neg this]
    simp [State.dropCount, hx]

/-- Closed form of the release sequence of `Reset(ptr)`, whose `delete` has a second guard. -/
theorem release_bind_guard {α : Type} {s : State} {d : Nat} {o : StoredObject}
    (h : s.block d = some o) (h1 : 1 ≤ o.count) (h2 : o.count < SIZE)
    (extra : Prop) [Decidable extra] (k : State → Option α) :
    ((s.decCount d).bind fun s1 => (s1.GetCount d).bind fun c =>
      if c = 0 ∧ extra then (s1.deleteBlock d).bind k else k s1) =
    k (s.dropCount d o (decide (o.count = 1 ∧ extra))) := by
  rw [decCount_eq h, dec_mod h1 h2]
  simp only [Option.some_bind]
  rw [GetCount_putCount h]
  simp only [if_true, Option.some_bind]
  have hb : (s.putCount d o (o.count - 1)).block d = some { o with count := o.count - 1 } := by
    rw [block_putCount h]; simp
  by_cases hx : o.count = 1 ∧ extra
  · have : o.count - 1 = 0 ∧ extra := ⟨by omega, hx.2⟩
    rw [if_pos this, deleteBlock_eq hb]
    simp [State.dropCount, hx, StoredObject.destroys]
  · have : ¬ (o.count - 1 = 0 ∧ extra) := fun h' => hx ⟨by omega, h'.2⟩
    rw [if_neg this]
    simp [State.dropCount, hx]

theorem block_dropCount {s : State} {d : Nat} {o : StoredObject} (h : s.block d = some o)
    (del : Bool) (k : Nat) :
    (s.dropCount d o del).block k =
      if k = d then (if del then none else some { o with count := o.count - 1 })
      else s.block k := by
  cases del
  · simp only [State.dropCount, Bool.false_eq_true, if_false]
    exact block_putCount h _ k
  · simp only [State.dropCount, if_true]
    by_cases hk : k = d
    · subst hk; simp [State.block]
    · have := block_putCount h (o.count - 1) k
      simp only [hk, if_false] at this ⊢
      rw [← this]
      simp [State.block, hk, State.putCount]

theorem GetCount_dropCount {s : State} {d : Nat} {o : StoredObject} (h : s.block d = some o)
    (del : Bool) (k : Nat) :
    (s.dropCount d o del).GetCount k =
      if k = d then (if del then none else some (o.count - 1)) else s.GetCount k := by
  unfold State.GetCount
  rw [block_dropCount h]
  by_cases hk : k = d <;> cases del <;> simp [hk]

@[simp] theorem dropCount_shared (s : State) (d : Nat) (o : StoredObject) (del : Bool) :
    (s.dropCount d o del).shared = s.shared := by
  cases del <;> rfl

@[simp] theorem dropCount_sharedAt (s : State) (d : Nat) (o : StoredObject) (del : Bool)
    (i : Nat) : (s.dropCount d o del).sharedAt i = s.sharedAt i := by
  cases del <;> rfl

@[simp] theorem dropCount_refs (s : State) (d : Nat) (o : StoredObject) (del : Bool)
    (k : Nat) : (s.dropCount d o del).refs k = s.refs k := by
  cases del <;> rfl

@[simp] theorem dropCount_heap_length (s : State) (d : Nat) (o : StoredObject) (del : Bool) :
    (s.dropCount d o del).heap.length = s.heap.length := by
  cases del <;> simp [State.dropCount, State.putCount]

theorem dropCount_freed (s : State) (d : Nat) (o : StoredObject) (del : Bool) :
    (s.dropCount d o del).freed = if del then d :: s.freed else s.freed := by
  cases del <;> rfl

theorem dropCount_deleted (s : State) (d : Nat) (o : StoredObject) (del : Bool) :
    (s.dropCount d o del).deleted = if del then o.destroys ++ s.deleted else s.deleted := by
  cases del <;> rfl

theorem dropCount_heap {s : State} {d : Nat} {o : StoredObject} (h : s.heap[d]? = some o)
    (del : Bool) (k : Nat) :
    (s.dropCount d o del).heap[k]? =
      if k = d then some { o with count := o.count - 1 } else s.heap[k]? := by
  have hd : d < s.heap.length := (List.getElem?_eq_some.mp h).1
  by_cases hk : k = d
  · subst hk; cases del <;> simp [State.dropCount, State.putCount, hd]
  · cases del <;> simp [State.dropCount, State.putCount, hk, List.getElem?_set_ne (Ne.symm hk)]

theorem dtor_eq {s : State} {i d : Nat} {p : SharedPtr} {o : StoredObject}
    (hp : s.sharedAt i = some p) (hd : p.data_ = some d) (h : s.block d = some o)
    (h1 : 1 ≤ o.count) (h2 : o.count < SIZE) :
    SharedPtr.dtor s i = some ((s.dropCount d o (decide (o.count = 1))).endShared i) := by
  simp only [SharedPtr.dtor, hp, hd, Option.bind_eq_bind, Option.some_bind]
  exact release_bind h h1 h2 _

theorem Reset_eq {s : State} {i d : Nat} {p : SharedPtr} {o : StoredObject}
    (hp : s.sharedAt i = some p) (hd : p.data_ = some d) (h : s.block d = some o)
    (h1 : 1 ≤ o.count) (h2 : o.count < SIZE) :
    SharedPtr.Reset s i = some ((s.dropCount d o (decide (o.count = 1))).setShared i
      { ptr_ := Ptr.null, data_ := none }) := by
  simp only [SharedPtr.Reset, hp, hd, Option.bind_eq_bind, Option.some_bind]
  exact release_bind h h1 h2 _

theorem copyAssign_eq {s : State} {i j d : Nat} {p q : SharedPtr} {o : StoredObject}
    (hij : i ≠ j) (hp : s.sharedAt i = some p) (hq : s.sharedAt j = some q)
    (hd : p.data_ = some d) (h : s.block d = some o)
    (h1 : 1 ≤ o.count) (h2 : o.count < SIZE) :
    SharedPtr.copyAssign s i j =
      match q.data_ with
      | some e => ((s.dropCount d o (decide (o.count = 1))).setShared i
          { ptr_ := q.ptr_, data_ := q.data_ }).incCount e
      | none => some ((s.dropCount d o (decide (o.count = 1))).setShared i
          { ptr_ := q.ptr_, data_ := q.data_ }) := by
  simp only [SharedPtr.copyAssign, hp, hq, hd, hij, Option.bind_eq_bind, Option.some_bind,
    if_false]
  exact release_bind h h1 h2 _

theorem moveAssign_eq {s : State} {i j d : Nat} {p q : SharedPtr} {o : StoredObject}
    (hij : i ≠ j) (hp : s.sharedAt i = some p) (hq : s.sharedAt j = some q)
    (hd : p.data_ = some d) (h : s.block d = some o)
    (h1 : 1 ≤ o.count) (h2 : o.count < SIZE) :
    SharedPtr.moveAssign s i j =
      some (((s.dropCount d o (decide (o.count = 1))).setShared i
          { ptr_ := q.ptr_, data_ := q.data_ }).setShared j { ptr_ := Ptr.null, data_ := none }) := by
  simp only [SharedPtr.moveAssign, hp, hq, hd, hij, Option.bind_eq_bind, Option.some_bind,
    if_false]
  exact release_bind h h1 h2 _

theorem ResetPtr_eq {s : State} {i d : Nat} {p : SharedPtr} {o : StoredObject} (ptr : Ptr)
    (hp : s.sharedAt i = some p) (hd : p.data_ = some d) (h : s.block d = some o)
    (h1 : 1 ≤ o.count) (h2 : o.count < SIZE) :
    SharedPtr.ResetPtr s i ptr =
      ((((s.dropCount d o (decide (o.count = 1 ∧ p.ptr_ ≠ ptr))).newDefaultObj ptr).setShared i
        { ptr_ := ptr, data_ := some s.heap.length }).setCountOne s.heap.length) := by
  simp only [SharedPtr.ResetPtr, hp, hd, Option.bind_eq_bind, Option.some_bind]
  rw [release_bind_guard h h1 h2 (p.ptr_ ≠ ptr)]
  simp

theorem sharedAt_setShared (s : State) (p : SharedPtr) {i : Nat} (hi : i < s.shared.length)
    (k : Nat) : (s.setShared i p).sharedAt k = if k = i then some p else s.sharedAt k := by
  by_cases hk : k = i
  · subst hk; simp [sharedAt_setShared_self s p hi]
  · simp [hk, sharedAt_setShared_of_ne s p (Ne.symm hk)]

theorem destroys_sub (o : StoredObject) {x : Ptr} (h : x ∈ o.destroys) : x = o.ptr_ := by
  unfold StoredObject.destroys at h
  split at h
  · simpa using h
  · split at h
    · simp at h
    · simpa using h

theorem destroys_nodup (o : StoredObject) : o.destroys.Nodup := by
  unfold StoredObject.destroys
  split
  · simp
  · split <;> simp

theorem ptrs_putCount {s : State} {d : Nat} {o : StoredObject} (h : s.heap[d]? = some o)
    (c : Nat) : (s.putCount d o c).ptrs = s.ptrs := by
  apply List.ext_getElem?
  intro k
  simp only [State.ptrs, List.getElem?_map, putCount_heap h]
  by_cases hk : k = d
  · subst hk; simp [h]
  · simp [hk]

theorem owned_putCount {s : State} {d : Nat} {o : StoredObject} (h : s.heap[d]? = some o)
    (c : Nat) : (s.putCount d o c).owned = s.owned := by
  apply List.ext_getElem?
  intro k
  simp only [State.owned, List.getElem?_map, putCount_heap h]
  by_cases hk : k = d
  · subst hk; simp [h, StoredObject.destroys]
  · simp [hk]

theorem heapInv_congr {s s1 : State} (h : HeapInv s) (h1 : s1.heap = s.heap)
    (h2 : s1.freed = s.freed) (h3 : s1.deleted = s.deleted) : HeapInv s1 := by
  obtain ⟨a, b, c, d, e⟩ := h
  constructor
  · rw [h1, h2]; exact a
  · simp only [State.ptrs, h1]; exact b
  · simp only [State.owned, h1]; exact c
  · simp only [State.owned, h1, h2, h3]; exact d
  · rw [h3]; exact e

theorem heapInv_putCount {s : State} {d : Nat} {o : StoredObject} (hi : HeapInv s)
    (h : s.heap[d]? = some o) (c : Nat) : HeapInv (s.putCount d o c) := by
  obtain ⟨a, b, c', d', e⟩ := hi
  constructor
  · simpa using a
  · rw [ptrs_putCount h]; simpa using b
  · rw [owned_putCount h]; exact c'
  · rw [owned_putCount h]; exact d'
  · exact e

theorem heapInv_dropCount {s : State} {d : Nat} {o : StoredObject} (hi : HeapInv s)
    (h : s.block d = some o) (del : Bool) : HeapInv (s.dropCount d o del) := by
  obtain ⟨hf, hh⟩ := block_eq_some.mp h
  have hp := heapInv_putCount hi hh (o.count - 1)
  cases del
  · exact hp
  · have hd : d < s.heap.length := (List.getElem?_eq_some.mp hh).1
    have hown : s.owned[d]? = some o.destroys := by simp [State.owned, hh]
    have ho : (s.dropCount d o true).owned = s.owned := owned_putCount hh _
    constructor
    · intro k hk
      simp only [dropCount_freed, if_true, List.mem_cons] at hk
      rw [dropCount_heap_length]
      rcases hk with rfl | hk
      · exact hd
      · exact hi.freed_lt k hk
    · have := hp.emb_lt
      simpa [State.ptrs, State.dropCount] using this
    · rw [ho]; exact hi.own_inj
    · intro x hx
      rw [ho]
      simp only [dropCount_deleted, if_true, List.mem_append] at hx
      simp only [dropCount_freed, if_true]
      rcases hx with hx | hx
      · exact ⟨d, List.mem_cons_self _ _, o.destroys, hown, hx⟩
      · obtain ⟨k, hk, l, hl, hxl⟩ := hi.deleted_src x hx
        exact ⟨k, List.mem_cons_of_mem _ hk, l, hl, hxl⟩
    · simp only [dropCount_deleted, if_true]
      apply List.Nodup.append (destroys_nodup o) hi.deleted_nodup
      intro x hx1 hx2
      obtain ⟨k, hk, l, hl, hxl⟩ := hi.deleted_src x hx2
      have := hi.own_inj k d l o.destroys x hl hown hxl hx1
      subst this
      exact hf hk

@[simp] theorem newDefaultObj_shared (s : State) (ptr : Ptr) :
    (s.newDefaultObj ptr).shared = s.shared := rfl
@[simp] theorem newDefaultObj_freed (s : State) (ptr : Ptr) :
    (s.newDefaultObj ptr).freed = s.freed := rfl
@[simp] theorem newDefaultObj_deleted (s : State) (ptr : Ptr) :
    (s.newDefaultObj ptr).deleted = s.deleted := rfl
@[simp] theorem newDefaultObj_sharedAt (s : State) (ptr : Ptr) (i : Nat) :
    (s.newDefaultObj ptr).sharedAt i = s.sharedAt i := rfl
@[simp] theorem newDefaultObj_refs (s : State) (ptr : Ptr) (k : Nat) :
    (s.newDefaultObj ptr).refs k = s.refs k := rfl
@[simp] theorem newDefaultObj_length (s : State) (ptr : Ptr) :
    (s.newDefaultObj ptr).heap.length = s.heap.length + 1 := by
  simp [State.newDefaultObj]
@[simp] theorem newMakeSharedObj_shared (s : State) (el : Int) :
    (s.newMakeSharedObj el).shared = s.shared := rfl
@[simp] theorem newMakeSharedObj_freed (s : State) (el : Int) :
    (s.newMakeSharedObj el).freed = s.freed := rfl
@[simp] theorem newMakeSharedObj_deleted (s : State) (el : Int) :
    (s.newMakeSharedObj el).deleted = s.deleted := rfl
@[simp] theorem newMakeSharedObj_sharedAt (s : State) (el : Int) (i : Nat) :
    (s.newMakeSharedObj el).sharedAt i = s.sharedAt i := rfl
@[simp] theorem newMakeSharedObj_refs (s : State) (el : Int) (k : Nat) :
    (s.newMakeSharedObj el).refs k = s.refs k := rfl
@[simp] theorem newMakeSharedObj_length (s : State) (el : Int) :
    (s.newMakeSharedObj el).heap.length = s.heap.length + 1 := by
  simp [State.newMakeSharedObj]

theorem getElem?_snoc {α : Type} (l : List α) (a : α) (k : Nat) :
    (l ++ [a])[k]? = if k = l.length then some a else l[k]? := by
  by_cases hk : k = l.length
  · subst hk; simp
  · simp only [hk, if_false]
    by_cases hlt : k < l.length
    · exact List.getElem?_append_left hlt
    · have h1 : l.length + 1 ≤ k := by omega
      rw [List.getElem?_eq_none (by simp; omega), List.getElem?_eq_none (by omega)]

theorem newDefaultObj_heap (s : State) (ptr : Ptr) (k : Nat) :
    (s.newDefaultObj ptr).heap[k]? =
      if k = s.heap.length then some { count := 0, weakCount := 0, ptr_ := ptr, obj := none }
      else s.heap[k]? := by
  simp only [State.newDefaultObj, getElem?_snoc]

theorem newMakeSharedObj_heap (s : State) (el : Int) (k : Nat) :
    (s.newMakeSharedObj el).heap[k]? =
      if k = s.heap.length then
        some { count := 0, weakCount := 0, ptr_ := Ptr.embedded s.heap.length, obj := some el }
      else s.heap[k]? := by
  simp only [State.newMakeSharedObj, getElem?_snoc]

theorem block_fresh (s : State) :
    s.block s.heap.length = none := by
  simp [State.block]

theorem newDefaultObj_block {s : State} (hf : ∀ d ∈ s.freed, d < s.heap.length) (ptr : Ptr)
    (k : Nat) :
    (s.newDefaultObj ptr).block k =
      if k = s.heap.length then some { count := 0, weakCount := 0, ptr_ := ptr, obj := none }
      else s.block k := by
  have hn : s.heap.length ∉ s.freed := fun h => Nat.lt_irrefl _ (hf _ h)
  unfold State.block
  rw [newDefaultObj_heap]
  by_cases hk : k = s.heap.length
  · subst hk; simp [hn]
  · simp [hk]

theorem newMakeSharedObj_block {s : State} (hf : ∀ d ∈ s.freed, d < s.heap.length) (el : Int)
    (k : Nat) :
    (s.newMakeSharedObj el).block k =
      if k = s.heap.length then
        some { count := 0, weakCount := 0, ptr_ := Ptr.embedded s.heap.length, obj := some el }
      else s.block k := by
  have hn : s.heap.length ∉ s.freed := fun h => Nat.lt_irrefl _ (hf _ h)
  unfold State.block
  rw [newMakeSharedObj_heap]
  by_cases hk : k = s.heap.length
  · subst hk; simp [hn]
  · simp [hk]

/-- Allocation of a block whose stored pointer `ptr` is owned by no block yet. -/
theorem heapInv_alloc {s : State} (hi : HeapInv s) (o : StoredObject)
    (hemb : ∀ c, o.ptr_ = Ptr.embedded c → c = s.heap.length)
    (hnew : ∀ o1 ∈ s.heap, o.ptr_ ∈ o.destroys → o1.ptr_ ≠ o.ptr_) :
    HeapInv { s with heap := s.heap ++ [o] } := by
  have hget : ∀ k, (s.heap ++ [o])[k]? = if k = s.heap.length then some o else s.heap[k]? :=
    getElem?_snoc s.heap o
  constructor
  · intro d hd
    have := hi.freed_lt d hd
    simp; omega
  · intro d c h
    simp only [State.ptrs, List.getElem?_map, hget] at h
    simp only [List.length_append, List.length_singleton]
    by_cases hd : d = s.heap.length
    · simp only [hd, if_true, Option.map_some', Option.some.injEq] at h
      have := hemb c h; omega
    · simp only [hd, if_false] at h
      have := hi.emb_lt d c (by simpa [State.ptrs] using h)
      omega
  · intro d1 d2 l1 l2 x h1 h2 hx1 hx2
    simp only [State.owned, List.getElem?_map, hget] at h1 h2
    have old : ∀ (d : Nat) (l : List Ptr), Option.map StoredObject.destroys s.heap[d]? = some l → x ∈ l →
        x ∈ o.destroys → False := by
      intro d l hl hxl hxo
      cases hh : s.heap[d]? with
      | none => simp [hh] at hl
      | some o1 =>
        simp only [hh, Option.map_some', Option.some.injEq] at hl
        subst hl
        have e1 := destroys_sub o1 hxl
        have e2 := destroys_sub o hxo
        have := hnew o1 (List.mem_iff_getElem?.mpr ⟨d, hh⟩) (by rw [← e2]; exact hxo)
        exact this (by rw [← e1, ← e2])
    by_cases hd1 : d1 = s.heap.length <;> by_cases hd2 : d2 = s.heap.length
    · rw [hd1, hd2]
    · simp only [hd1, hd2, if_true, if_false, Option.map_some', Option.some.injEq] at h1 h2
      subst h1
      exact (old d2 l2 h2 hx2 hx1).elim
    · simp only [hd1, hd2, if_true, if_false, Option.map_some', Option.some.injEq] at h1 h2
      subst h2
      exact (old d1 l1 h1 hx1 hx2).elim
    · simp only [hd1, hd2, if_false] at h1 h2
      exact hi.own_inj d1 d2 l1 l2 x (by simpa [State.owned] using h1)
        (by simpa [State.owned] using h2) hx1 hx2
  · intro x hx
    obtain ⟨d, hd, l, hl, hxl⟩ := hi.deleted_src x hx
    refine ⟨d, hd, l, ?_, hxl⟩
    have hlt := hi.freed_lt d hd
    simp only [State.owned, List.getElem?_map, hget, Nat.ne_of_lt hlt, if_false]
    simpa [State.owned] using hl
  · exact hi.deleted_nodup

theorem heapInv_newDefaultObj {s : State} (hi : HeapInv s) {ptr : Ptr} (ha : s.Adoptable ptr) :
    HeapInv (s.newDefaultObj ptr) := by
  apply heapInv_alloc hi
  · intro c hc
    rcases ha with h | ⟨⟨a, h⟩, _⟩
    · simp [h] at hc
    · simp [h] at hc
  · intro o1 ho1 hmem
    rcases ha with h | ⟨_, h⟩
    · simp [StoredObject.destroys, h] at hmem
    · exact h o1 ho1

theorem heapInv_newMakeSharedObj {s : State} (hi : HeapInv s) (el : Int) :
    HeapInv (s.newMakeSharedObj el) := by
  apply heapInv_alloc hi
  · intro c hc
    simpa using hc.symm
  · intro o1 ho1 _ h
    obtain ⟨d, hd⟩ := List.mem_iff_getElem?.mp ho1
    have := hi.emb_lt d s.heap.length (by simp [State.ptrs, hd, h])
    omega

theorem block_congr {s s1 : State} (h1 : s1.heap = s.heap) (h2 : s1.freed = s.freed) (d : Nat) :
    s1.block d = s.block d := by
  simp [State.block, h1, h2]

theorem Inv.mono {n m : Nat} {s : State} (h : Inv n s) (hnm : n ≤ m) : Inv m s :=
  ⟨h.heapInv, h.refs_le, fun d o hd => Nat.le_trans (h.count_le d o hd) hnm⟩

theorem Inv.block {n : Nat} {s : State} (h : Inv n s) {i : Nat} {p : SharedPtr} {d : Nat}
    (hp : s.sharedAt i = some p) (hd : p.data_ = some d) :
    ∃ o, s.block d = some o ∧ 1 ≤ o.count ∧ o.count ≤ n ∧ s.refs d ≤ o.count := by
  have h1 := refs_pos hp hd
  have h2 := h.refs_le d
  unfold State.GetCount at h2
  cases hb : s.block d with
  | none => simp [hb] at h2; omega
  | some o =>
    simp [hb] at h2
    exact ⟨o, rfl, by omega, h.count_le d o (block_eq_some.mp hb).2, h2⟩

/-- Stage: only the instances change, and no block gains a holder. -/
theorem Inv.stage_shared {n : Nat} {s s1 : State} (h : Inv n s) (h1 : s1.heap = s.heap)
    (h2 : s1.freed = s.freed) (h3 : s1.deleted = s.deleted)
    (hr : ∀ d, s1.refs d ≤ s.refs d) : Inv n s1 := by
  refine ⟨heapInv_congr h.heapInv h1 h2 h3, ?_, ?_⟩
  · intro d
    rw [GetCount_congr h1 h2]
    exact Nat.le_trans (hr d) (h.refs_le d)
  · rw [h1]; exact h.count_le

/-- Stage: block `d` gains at most one holder and its counter is incremented. -/
theorem Inv.stage_inc {n : Nat} {s s1 : State} (h : Inv n s) {d : Nat} {o : StoredObject}
    (hb : s.block d = some o) (h1 : s1.heap = s.heap)
    (h2 : s1.freed = s.freed) (h3 : s1.deleted = s.deleted)
    (hr : ∀ k, s1.refs k ≤ s.refs k + (if k = d then 1 else 0)) :
    Inv (n + 1) (s1.putCount d o (o.count + 1)) := by
  have hb1 : s1.block d = some o := by rw [block_congr h1 h2]; exact hb
  have hh1 := (block_eq_some.mp hb1).2
  refine ⟨heapInv_putCount (heapInv_congr h.heapInv h1 h2 h3) hh1 _, ?_, ?_⟩
  · intro k
    rw [putCount_refs, GetCount_putCount hb1]
    have hrk := hr k
    have hle := h.refs_le k
    by_cases hk : k = d
    · subst hk
      rw [GetCount_of_block hb] at hle
      simp only [if_true, Option.getD_some] at hrk hle ⊢
      omega
    · simp only [hk, if_false] at hrk ⊢
      rw [GetCount_congr h1 h2]
      omega
  · intro k o1 hk
    rw [putCount_heap hh1] at hk
    by_cases hkd : k = d
    · simp only [hkd, if_true, Option.some.injEq] at hk
      subst hk
      have := h.count_le d o (block_eq_some.mp hb).2
      simp; omega
    · simp only [hkd, if_false] at hk
      rw [h1] at hk
      have := h.count_le k o1 hk
      omega

/-- Stage: block `d` loses a holder and goes through the release sequence. -/
theorem Inv.stage_drop {n : Nat} {s s1 : State} (h : Inv n s) {d : Nat} {o : StoredObject}
    (hb : s.block d = some o) (del : Bool) (hdel : del = true → o.count = 1)
    (h1 : s1.heap = (s.dropCount d o del).heap)
    (h2 : s1.freed = (s.dropCount d o del).freed)
    (h3 : s1.deleted = (s.dropCount d o del).deleted)
    (hr : ∀ k, s1.refs k + (if k = d then 1 else 0) ≤ s.refs k) : Inv n s1 := by
  have hh := (block_eq_some.mp hb).2
  refine ⟨heapInv_congr (heapInv_dropCount h.heapInv hb del) h1 h2 h3, ?_, ?_⟩
  · intro k
    rw [GetCount_congr h1 h2, GetCount_dropCount hb]
    have hrk := hr k
    have hle := h.refs_le k
    by_cases hk : k = d
    · subst hk
      rw [GetCount_of_block hb] at hle
      simp only [if_true, Option.getD_some] at hrk hle ⊢
      cases del
      · simp only [Bool.false_eq_true, if_false, Option.getD_some]; omega
      · have := hdel rfl
        simp only [if_true, Option.getD_none]; omega
    · simp only [hk, if_false] at hrk ⊢
      omega
  · intro k o1 hk
    rw [h1, dropCount_heap hh] at hk
    by_cases hkd : k = d
    · simp only [hkd, if_true, Option.some.injEq] at hk
      subst hk
      have := h.count_le d o hh
      simp; omega
    · simp only [hkd, if_false] at hk
      exact h.count_le k o1 hk

/-- Stage: a new block is allocated, gets one holder and the counter value 1. -/
theorem Inv.stage_alloc {n : Nat} {s s1 : State} (h : Inv n s) {o : StoredObject}
    (hI : HeapInv { s with heap := s.heap ++ [o] })
    (h1 : s1.heap = s.heap ++ [o])
    (h2 : s1.freed = s.freed) (h3 : s1.deleted = s.deleted)
    (hr : ∀ k, s1.refs k ≤ s.refs k + (if k = s.heap.length then 1 else 0)) :
    Inv (n + 1) (s1.putCount s.heap.length o 1) := by
  have hh1 : s1.heap[s.heap.length]? = some o := by rw [h1]; simp
  have hnf : s.heap.length ∉ s1.freed := by
    rw [h2]; intro hm; exact Nat.lt_irrefl _ (h.heapInv.freed_lt _ hm)
  have hb1 : s1.block s.heap.length = some o := block_eq_some.mpr ⟨hnf, hh1⟩
  have hget : ∀ k, s1.heap[k]? = if k = s.heap.length then some o else s.heap[k]? := by
    intro k; rw [h1]; exact getElem?_snoc s.heap o k
  refine ⟨heapInv_putCount (heapInv_congr hI h1 h2 h3) hh1 _, ?_, ?_⟩
  · intro k
    rw [putCount_refs, GetCount_putCount hb1]
    have hrk := hr k
    have hle := h.refs_le k
    by_cases hk : k = s.heap.length
    · rw [hk] at hrk hle ⊢
      have e : s.GetCount s.heap.length = none := by simp [State.GetCount, block_fresh]
      rw [e] at hle
      simp only [if_true, Option.getD_some, Option.getD_none] at hrk hle ⊢
      omega
    · simp only [hk, if_false] at hrk ⊢
      have e : s1.GetCount k = s.GetCount k := by
        simp [State.GetCount, State.block, h2, hget, hk]
      rw [e]; omega
  · intro k o1 hk
    rw [putCount_heap hh1, hget] at hk
    by_cases hkd : k = s.heap.length
    · simp only [hkd, if_true, Option.some.injEq] at hk
      subst hk
      simp
    · simp only [hkd, if_false] at hk
      have := h.count_le k o1 hk
      omega

theorem sharedAt_some_of_bind {α : Type} {s : State} {i : Nat} {f : SharedPtr → Option α}
    {r : α} (h : (s.sharedAt i).bind f = some r) : ∃ p, s.sharedAt i = some p ∧ f p = some r := by
  cases hp : s.sharedAt i with
  | none => simp [hp] at h
  | some p => exact ⟨p, rfl, by simpa [hp] using h⟩

theorem Inv.ctorDefault {n : Nat} {s : State} (h : Inv n s) :
    Inv (n + 1) (s.newShared { ptr_ := Ptr.null, data_ := none }) := by
  have : Inv n (s.newShared { ptr_ := Ptr.null, data_ := none }) :=
    h.stage_shared rfl rfl rfl (by intro d; rw [refs_newShared]; simp)
  exact this.mono (Nat.le_succ n)

theorem Inv.ctorRaw {n : Nat} {s s1 : State} (h : Inv n s) {ptr : Ptr}
    (ha : s.Adoptable ptr) (hs : SharedPtr.ctorRaw s ptr = some s1) : Inv (n + 1) s1 := by
  have hb := newDefaultObj_block h.heapInv.freed_lt ptr s.heap.length
  simp only [if_true] at hb
  have hb1 : ((s.newDefaultObj ptr).newShared { ptr_ := ptr, data_ := some s.heap.length }).block
      s.heap.length = some { count := 0, weakCount := 0, ptr_ := ptr, obj := none } := hb
  simp only [SharedPtr.ctorRaw] at hs
  rw [incCount_eq hb1] at hs
  cases hs
  have e : (0 + 1) % SIZE = 1 := by decide
  simp only [e]
  refine h.stage_alloc (heapInv_newDefaultObj h.heapInv ha) rfl rfl rfl ?_
  intro k
  rw [refs_newShared, newDefaultObj_refs]
  by_cases hk : k = s.heap.length
  · simp [hk]
  · have : s.heap.length ≠ k := Ne.symm hk
    simp [hk, this]

theorem Inv.makeShared {n : Nat} {s s1 : State} (h : Inv n s) {el : Int}
    (hs : MakeShared s el = some s1) : Inv (n + 1) s1 := by
  have hb := newMakeSharedObj_block h.heapInv.freed_lt el s.heap.length
  simp only [if_true] at hb
  have hb1 : ((s.newMakeSharedObj el).newShared
      { ptr_ := Ptr.embedded s.heap.length, data_ := some s.heap.length }).block
      s.heap.length =
      some { count := 0, weakCount := 0, ptr_ := Ptr.embedded s.heap.length, obj := some el } :=
    hb
  simp only [MakeShared] at hs
  rw [incCount_eq hb1] at hs
  cases hs
  have e : (0 + 1) % SIZE = 1 := by decide
  simp only [e]
  refine h.stage_alloc (heapInv_newMakeSharedObj h.heapInv el) rfl rfl rfl ?_
  intro k
  rw [refs_newShared, newMakeSharedObj_refs]
  by_cases hk : k = s.heap.length
  · simp [hk]
  · have : s.heap.length ≠ k := Ne.symm hk
    simp [hk, this]

/-- A new instance that shares block `d` with an existing holder, followed by `++count`. -/
theorem Inv.share {n : Nat} {s s1 : State} (h : Inv n s) (hn : n + 1 < SIZE) {j d : Nat}
    {p : SharedPtr} (hp : s.sharedAt j = some p) (hd : p.data_ = some d) (ptr : Ptr)
    (hs : (s.newShared { ptr_ := ptr, data_ := some d }).incCount d = some s1) :
    Inv (n + 1) s1 := by
  obtain ⟨o, hb, h1, h2, _⟩ := h.block hp hd
  have hb1 : (s.newShared { ptr_ := ptr, data_ := some d }).block d = some o := hb
  rw [incCount_eq hb1, Nat.mod_eq_of_lt (by omega)] at hs
  cases hs
  refine h.stage_inc hb rfl rfl rfl ?_
  intro k
  rw [refs_newShared]
  by_cases hk : k = d
  · simp [hk]
  · have : d ≠ k := Ne.symm hk
    simp [hk, this]

theorem Inv.copyCtor {n : Nat} {s s1 : State} (h : Inv n s) (hn : n + 1 < SIZE) {j : Nat}
    (hs : SharedPtr.copyCtor s j = some s1) : Inv (n + 1) s1 := by
  obtain ⟨p, hp, hs⟩ := sharedAt_some_of_bind hs
  cases hd : p.data_ with
  | none =>
    simp only [hd] at hs
    cases hs
    exact h.ctorDefault
  | some d =>
    simp only [hd] at hs
    exact h.share hn hp hd _ hs

theorem Inv.copyCtorConv {n : Nat} {s s1 : State} (h : Inv n s) (hn : n + 1 < SIZE) {j : Nat}
    (hs : SharedPtr.copyCtorConv s j = some s1) : Inv (n + 1) s1 :=
  h.copyCtor hn (j := j) hs

theorem Inv.aliasCtor {n : Nat} {s s1 : State} (h : Inv n s) (hn : n + 1 < SIZE) {j : Nat}
    {ptr : Ptr} (hs : SharedPtr.aliasCtor s j ptr = some s1) : Inv (n + 1) s1 := by
  obtain ⟨p, hp, hs⟩ := sharedAt_some_of_bind hs
  cases hd : p.data_ with
  | none => simp [hd] at hs
  | some d =>
    simp only [hd, Option.bind_eq_bind, Option.some_bind] at hs
    exact h.share hn hp hd _ hs

/-- The source of a move is emptied and a new instance takes over its block. -/
theorem Inv.moved {n : Nat} {s : State} (h : Inv n s) {j : Nat} {p q r : SharedPtr}
    (hp : s.sharedAt j = some p) (hq : q.data_ = none) (hr : r.data_ = p.data_) :
    Inv (n + 1) ((s.setShared j q).newShared r) := by
  have key : Inv n ((s.setShared j q).newShared r) := by
    refine h.stage_shared rfl rfl rfl ?_
    intro k
    have := refs_setShared hp q k
    rw [refs_newShared, hr]
    simp only [hq] at this
    simp at this
    omega
  exact key.mono (Nat.le_succ n)

theorem Inv.moveCtor {n : Nat} {s s1 : State} (h : Inv n s) {j : Nat}
    (hs : SharedPtr.moveCtor s j = some s1) : Inv (n + 1) s1 := by
  obtain ⟨p, hp, hs⟩ := sharedAt_some_of_bind hs
  cases hd : p.data_ with
  | none =>
    simp only [hd] at hs
    cases hs
    exact h.moved hp rfl (by rw [hd])
  | some d =>
    simp only [hd] at hs
    cases hs
    exact h.moved hp rfl (by rw [hd])

theorem Inv.moveCtorConv {n : Nat} {s s1 : State} (h : Inv n s) {j : Nat}
    (hs : SharedPtr.moveCtorConv s j = some s1) : Inv (n + 1) s1 := by
  obtain ⟨p, hp, hs⟩ := sharedAt_some_of_bind hs
  cases hd : p.data_ with
  | none =>
    simp only [hd] at hs
    cases hs
    exact h.moved hp rfl (by rw [hd])
  | some d =>
    simp only [hd] at hs
    cases hs
    exact h.moved hp rfl (by rw [hd])

theorem setShared_setShared (s : State) (i : Nat) (p q : SharedPtr) :
    (s.setShared i p).setShared i q = s.setShared i q := by
  simp [State.setShared, List.set_set]

theorem Inv.dtor {n : Nat} {s s1 : State} (h : Inv n s) (hn : n + 1 < SIZE) {i : Nat}
    (hs : SharedPtr.dtor s i = some s1) : Inv (n + 1) s1 := by
  obtain ⟨p, hp, hs'⟩ := sharedAt_some_of_bind hs
  cases hd : p.data_ with
  | none =>
    simp only [hd] at hs'
    cases hs'
    have key : Inv n (s.endShared i) := by
      refine h.stage_shared rfl rfl rfl ?_
      intro k
      have := refs_endShared hp k
      omega
    exact key.mono (Nat.le_succ n)
  | some d =>
    obtain ⟨o, hb, h1, h2, _⟩ := h.block hp hd
    rw [dtor_eq hp hd hb h1 (by omega)] at hs
    cases hs
    have key : Inv n ((s.dropCount d o (decide (o.count = 1))).endShared i) := by
      refine h.stage_drop hb _ (by simp) rfl rfl rfl ?_
      intro k
      have := refs_endShared (s := s.dropCount d o (decide (o.count = 1)))
        (by simpa using hp) k
      rw [dropCount_refs, hd] at this
      by_cases hk : k = d
      · simp [hk] at this ⊢; omega
      · have hk' : d ≠ k := Ne.symm hk
        simp [hk, hk'] at this ⊢; omega
    exact key.mono (Nat.le_succ n)

/-- State after the release sequence on the block of instance `i`, with `i` emptied. -/
theorem Inv.released {n : Nat} {s : State} (h : Inv n s) {i d : Nat} {p : SharedPtr}
    {o : StoredObject} (hp : s.sharedAt i = some p) (hd : p.data_ = some d)
    (hb : s.block d = some o) (del : Bool) (hdel : del = true → o.count = 1)
    (q : SharedPtr) (hq : q.data_ = none) :
    Inv n ((s.dropCount d o del).setShared i q) := by
  refine h.stage_drop hb del hdel rfl rfl rfl ?_
  intro k
  have := refs_setShared (s := s.dropCount d o del) (by simpa using hp) q k
  rw [dropCount_refs, hd, hq] at this
  by_cases hk : k = d
  · simp [hk] at this ⊢; omega
  · have hk' : d ≠ k := Ne.symm hk
    simp [hk, hk'] at this ⊢; omega

theorem Inv.Reset {n : Nat} {s s1 : State} (h : Inv n s) (hn : n + 1 < SIZE) {i : Nat}
    (hs : SharedPtr.Reset s i = some s1) : Inv (n + 1) s1 := by
  obtain ⟨p, hp, hs'⟩ := sharedAt_some_of_bind hs
  cases hd : p.data_ with
  | none =>
    simp only [hd] at hs'
    cases hs'
    exact h.mono (Nat.le_succ n)
  | some d =>
    obtain ⟨o, hb, h1, h2, _⟩ := h.block hp hd
    rw [Reset_eq hp hd hb h1 (by omega)] at hs
    cases hs
    exact (h.released hp hd hb _ (by simp) _ rfl).mono (Nat.le_succ n)

theorem Inv.Swap {n : Nat} {s s1 : State} (h : Inv n s) {i j : Nat}
    (hs : SharedPtr.Swap s i j = some s1) : Inv (n + 1) s1 := by
  obtain ⟨pa, ha, hs⟩ := sharedAt_some_of_bind hs
  obtain ⟨pb, hb, hs⟩ := sharedAt_some_of_bind hs
  simp only [Option.some.injEq] at hs
  subst hs
  have hi := sharedAt_lt ha
  have key : Inv n ((s.setShared i pb).setShared j pa) := by
    refine h.stage_shared rfl rfl rfl ?_
    intro k
    have e1 := refs_setShared ha pb k
    have hj : (s.setShared i pb).sharedAt j = some pb := by
      rw [sharedAt_setShared s pb hi]
      by_cases hji : j = i
      · simp [hji]
      · simp [hji, hb]
    have e2 := refs_setShared hj pa k
    omega
  exact key.mono (Nat.le_succ n)

theorem Inv.copyAssign {n : Nat} {s s1 : State} (h : Inv n s) (hn : n + 1 < SIZE) {i j : Nat}
    (hs : SharedPtr.copyAssign s i j = some s1) : Inv (n + 1) s1 := by
  obtain ⟨pa, ha, hs'⟩ := sharedAt_some_of_bind hs
  obtain ⟨pb, hb, hs'⟩ := sharedAt_some_of_bind hs'
  have hi := sharedAt_lt ha
  by_cases hij : i = j
  · simp only [hij, if_true, Option.some.injEq] at hs'
    subst hs'
    exact h.mono (Nat.le_succ n)
  · obtain ⟨ap, ad⟩ := pa
    obtain ⟨bp, bd⟩ := pb
    cases ad with
    | none =>
      simp only [hij, if_false] at hs'
      cases bd with
      | none =>
        simp only [Option.some.injEq] at hs'
        subst hs'
        have key : Inv n (s.setShared i { ptr_ := bp, data_ := none }) := by
          refine h.stage_shared rfl rfl rfl ?_
          intro k
          have := refs_setShared ha { ptr_ := bp, data_ := none } k
          simp at this
          omega
        exact key.mono (Nat.le_succ n)
      | some e =>
        simp only [] at hs'
        obtain ⟨oe, hbe, he1, he2, _⟩ := h.block hb rfl
        have hbe1 : (s.setShared i { ptr_ := bp, data_ := some e }).block e = some oe := hbe
        rw [incCount_eq hbe1, Nat.mod_eq_of_lt (by omega)] at hs'
        cases hs'
        refine h.stage_inc hbe rfl rfl rfl ?_
        intro k
        have := refs_setShared ha { ptr_ := bp, data_ := some e } k
        by_cases hk : k = e
        · simp [hk] at this ⊢; omega
        · have hk' : e ≠ k := Ne.symm hk
          simp [hk, hk'] at this ⊢; omega
    | some d0 =>
      obtain ⟨o0, hb0, h01, h02, _⟩ := h.block ha rfl
      rw [copyAssign_eq hij ha hb rfl hb0 h01 (by omega)] at hs
      cases bd with
      | none =>
        simp only [Option.some.injEq] at hs
        subst hs
        exact (h.released ha rfl hb0 _ (by simp) _ rfl).mono (Nat.le_succ n)
      | some e =>
        simp only [] at hs
        have hA := h.released ha rfl hb0 (decide (o0.count = 1)) (by simp)
          { ptr_ := Ptr.null, data_ := none } rfl
        have hbA : ((s.dropCount d0 o0 (decide (o0.count = 1))).setShared i
            { ptr_ := Ptr.null, data_ := none }).sharedAt j = some { ptr_ := bp, data_ := some e } := by
          rw [sharedAt_setShared_of_ne _ _ hij, dropCount_sharedAt]; exact hb
        have hiA : ((s.dropCount d0 o0 (decide (o0.count = 1))).setShared i
            { ptr_ := Ptr.null, data_ := none }).sharedAt i =
            some { ptr_ := Ptr.null, data_ := none } :=
          sharedAt_setShared_self _ _ (by simpa using hi)
        obtain ⟨oe, hbe, he1, he2, _⟩ := hA.block hbA rfl
        rw [← setShared_setShared _ i { ptr_ := Ptr.null, data_ := none }] at hs
        have hbe1 : (((s.dropCount d0 o0 (decide (o0.count = 1))).setShared i
            { ptr_ := Ptr.null, data_ := none }).setShared i
            { ptr_ := bp, data_ := some e }).block e = some oe := hbe
        rw [incCount_eq hbe1, Nat.mod_eq_of_lt (by omega)] at hs
        cases hs
        refine hA.stage_inc hbe rfl rfl rfl ?_
        intro k
        have := refs_setShared hiA { ptr_ := bp, data_ := some e } k
        by_cases hk : k = e
        · simp [hk] at this ⊢; omega
        · have hk' : e ≠ k := Ne.symm hk
          simp [hk, hk'] at this ⊢; omega

theorem Inv.moveAssign {n : Nat} {s s1 : State} (h : Inv n s) (hn : n + 1 < SIZE) {i j : Nat}
    (hs : SharedPtr.moveAssign s i j = some s1) : Inv (n + 1) s1 := by
  obtain ⟨pa, ha, hs'⟩ := sharedAt_some_of_bind hs
  obtain ⟨pb, hb, hs'⟩ := sharedAt_some_of_bind hs'
  have hi := sharedAt_lt ha
  by_cases hij : i = j
  · simp only [hij, if_true, Option.some.injEq] at hs'
    subst hs'
    exact h.mono (Nat.le_succ n)
  · obtain ⟨ap, ad⟩ := pa
    obtain ⟨bp, bd⟩ := pb
    have hrefs : ∀ (t : State) (x : SharedPtr), t.sharedAt i = some x → t.sharedAt j =
        some { ptr_ := bp, data_ := bd } → ∀ k,
        ((t.setShared i { ptr_ := bp, data_ := bd }).setShared j
          { ptr_ := Ptr.null, data_ := none }).refs k +
          (if x.data_ = some k then 1 else 0) = t.refs k := by
      intro t x hx hy k
      have e1 := refs_setShared hx { ptr_ := bp, data_ := bd } k
      have hj : (t.setShared i { ptr_ := bp, data_ := bd }).sharedAt j =
          some { ptr_ := bp, data_ := bd } := by
        rw [sharedAt_setShared_of_ne _ _ hij]; exact hy
      have e2 := refs_setShared hj { ptr_ := Ptr.null, data_ := none } k
      simp only [] at e1 e2
      simp at e2
      omega
    cases ad with
    | none =>
      simp only [hij, if_false] at hs'
      have hr := hrefs s _ ha hb
      cases bd with
      | none =>
        simp only [Option.some.injEq] at hs'
        subst hs'
        have key : Inv n ((s.setShared i { ptr_ := bp, data_ := none }).setShared j
            { ptr_ := Ptr.null, data_ := none }) := by
          refine h.stage_shared rfl rfl rfl ?_
          intro k
          have := hr k
          simp at this
          omega
        exact key.mono (Nat.le_succ n)
      | some e =>
        simp only [] at hs'
        obtain ⟨oe, hbe, he1, he2, _⟩ := h.block hb rfl
        have hbe1 : ((s.setShared i { ptr_ := bp, data_ := some e }).setShared j
            { ptr_ := Ptr.null, data_ := none }).block e = some oe := hbe
        rw [incCount_eq hbe1, Nat.mod_eq_of_lt (by omega)] at hs'
        cases hs'
        refine h.stage_inc hbe rfl rfl rfl ?_
        intro k
        have := hr k
        simp at this
        omega
    | some d0 =>
      obtain ⟨o0, hb0, h01, h02, _⟩ := h.block ha rfl
      rw [moveAssign_eq hij ha hb rfl hb0 h01 (by omega)] at hs
      simp only [Option.some.injEq] at hs
      subst hs
      have key : Inv n (((s.dropCount d0 o0 (decide (o0.count = 1))).setShared i
          { ptr_ := bp, data_ := bd }).setShared j { ptr_ := Ptr.null, data_ := none }) := by
        refine h.stage_drop hb0 _ (by simp) rfl rfl rfl ?_
        intro k
        have := hrefs (s.dropCount d0 o0 (decide (o0.count = 1))) _
          (by simpa using ha) (by simpa using hb) k
        rw [dropCount_refs] at this
        by_cases hk : k = d0
        · simp [hk] at this ⊢; omega
        · have hk' : d0 ≠ k := Ne.symm hk
          simp [hk, hk'] at this ⊢; omega
      exact key.mono (Nat.le_succ n)

theorem adoptable_congr {s s1 : State} {ptr : Ptr} (h : s1.ptrs = s.ptrs)
    (ha : s.Adoptable ptr) : s1.Adoptable ptr := by
  rcases ha with h0 | ⟨h1, h2⟩
  · exact Or.inl h0
  · refine Or.inr ⟨h1, ?_⟩
    intro o ho hp
    have : ptr ∈ s1.ptrs := List.mem_map.mpr ⟨o, ho, hp⟩
    rw [h] at this
    obtain ⟨o', ho', hp'⟩ := List.mem_map.mp this
    exact h2 o' ho' hp'

theorem ptrs_dropCount {s : State} {d : Nat} {o : StoredObject} (h : s.heap[d]? = some o)
    (del : Bool) : (s.dropCount d o del).ptrs = s.ptrs := by
  cases del
  · exact ptrs_putCount h _
  · exact ptrs_putCount h _

theorem Inv.ResetPtr {n : Nat} {s s1 : State} (h : Inv n s) (hn : n + 1 < SIZE) {i : Nat}
    {ptr : Ptr} (hf : s.Adoptable ptr) (hs : SharedPtr.ResetPtr s i ptr = some s1) :
    Inv (n + 1) s1 := by
  obtain ⟨p, hp, hs'⟩ := sharedAt_some_of_bind hs
  have hi := sharedAt_lt hp
  have fresh : ∀ (t : State), Inv n t → t.Adoptable ptr → ∀ x : SharedPtr,
      t.sharedAt i = some x → x.data_ = none →
      ((t.newDefaultObj ptr).setShared i { ptr_ := ptr, data_ := some t.heap.length }).setCountOne
        t.heap.length = some s1 → Inv (n + 1) s1 := by
    intro t ht hta x hx hxd hs1
    have hb := newDefaultObj_block ht.heapInv.freed_lt ptr t.heap.length
    simp only [if_true] at hb
    have hb1 : ((t.newDefaultObj ptr).setShared i
        { ptr_ := ptr, data_ := some t.heap.length }).block t.heap.length =
        some { count := 0, weakCount := 0, ptr_ := ptr, obj := none } := hb
    rw [setCountOne_eq hb1] at hs1
    cases hs1
    refine ht.stage_alloc (heapInv_newDefaultObj ht.heapInv hta) rfl rfl rfl ?_
    intro k
    have := refs_setShared (s := t.newDefaultObj ptr) (by simpa using hx)
      { ptr_ := ptr, data_ := some t.heap.length } k
    rw [newDefaultObj_refs, hxd] at this
    by_cases hk : k = t.heap.length
    · simp [hk] at this ⊢; omega
    · have hk' : t.heap.length ≠ k := Ne.symm hk
      simp [hk, hk'] at this ⊢; omega
  cases hd : p.data_ with
  | none =>
    simp only [hd] at hs'
    exact fresh s h hf p hp hd hs'
  | some d =>
    obtain ⟨o, hb, h1, h2, _⟩ := h.block hp hd
    rw [ResetPtr_eq ptr hp hd hb h1 (by omega)] at hs
    have hA := h.released hp hd hb (decide (o.count = 1 ∧ p.ptr_ ≠ ptr))
      (by simp; intro a _; exact a) { ptr_ := Ptr.null, data_ := none } rfl
    have hiA : ((s.dropCount d o (decide (o.count = 1 ∧ p.ptr_ ≠ ptr))).setShared i
        { ptr_ := Ptr.null, data_ := none }).sharedAt i =
        some { ptr_ := Ptr.null, data_ := none } :=
      sharedAt_setShared_self _ _ (by simpa using hi)
    have hadopt : ((s.dropCount d o (decide (o.count = 1 ∧ p.ptr_ ≠ ptr))).setShared i
        { ptr_ := Ptr.null, data_ := none }).Adoptable ptr :=
      adoptable_congr (ptrs_dropCount (block_eq_some.mp hb).2 _) hf
    refine fresh _ hA hadopt _ hiA rfl ?_
    rw [← hs]
    simp only [setShared_heap, dropCount_heap_length]
    have e : (((s.dropCount d o (decide (o.count = 1 ∧ p.ptr_ ≠ ptr))).setShared i
        { ptr_ := Ptr.null, data_ := none }).newDefaultObj ptr) =
        ((s.dropCount d o (decide (o.count = 1 ∧ p.ptr_ ≠ ptr))).newDefaultObj ptr).setShared i
        { ptr_ := Ptr.null, data_ := none } := rfl
    rw [e, setShared_setShared]

/-- One operation preserves the invariant. -/
theorem Inv.step {n : Nat} {s s1 : State} (h : Inv n s) (hn : n + 1 < SIZE) (op : Op)
    (hf : op.Fresh s) (hs : step s op = some s1) : Inv (n + 1) s1 := by
  cases op with
  | ctorDefault => simp only [SmartPointers.step, Option.some.injEq] at hs; subst hs; exact h.ctorDefault
  | ctorNull => simp only [SmartPointers.step, Option.some.injEq] at hs; subst hs; exact h.ctorDefault
  | ctorRaw ptr => exact h.ctorRaw hf hs
  | makeShared el => exact h.makeShared hs
  | copyCtor j => exact h.copyCtor hn hs
  | moveCtor j => exact h.moveCtor hs
  | copyCtorConv j => exact h.copyCtorConv hn hs
  | moveCtorConv j => exact h.moveCtorConv hs
  | aliasCtor j ptr => exact h.aliasCtor hn hs
  | copyAssign i j => exact h.copyAssign hn hs
  | moveAssign i j => exact h.moveAssign hn hs
  | dtor i => exact h.dtor hn hs
  | reset i => exact h.Reset hn hs
  | resetPtr i ptr => exact h.ResetPtr hn hf hs
  | swap i j => exact h.Swap hs

theorem inv_init : Inv 0 State.init := by
  refine ⟨⟨?_, ?_, ?_, ?_, ?_⟩, ?_, ?_⟩
  · intro d hd; simp [State.init] at hd
  · intro d c hd; simp [State.init, State.ptrs] at hd
  · intro d1 d2 l1 l2 x h1; simp [State.init, State.owned] at h1
  · intro x hx; simp [State.init] at hx
  · simp [State.init]
  · intro d; simp [State.init, State.refs]
  · intro d o hd; simp [State.init] at hd

/-- Every state reached in fewer than `2 ^ 64` operations satisfies the invariant. -/
theorem reach_inv {n : Nat} {s : State} (h : Reach n s) (hn : n < SIZE) : Inv n s := by
  induction h with
  | init => exact inv_init
  | step op _ hf hs ih => exact (ih (by omega)).step hn op hf hs

theorem Inv.valid {n : Nat} {s : State} (h : Inv n s) (hn : n < SIZE) : s.Valid := by
  refine ⟨?_, h.heapInv.freed_lt, fun d _ => h.refs_le d⟩
  intro o ho
  obtain ⟨d, hd⟩ := List.mem_iff_getElem?.mp ho
  have := h.count_le d o hd
  omega

theorem alias_general (s : State) (j d : Nat) (p : SharedPtr) (o : StoredObject)
    (ptr : Ptr) (hp : s.sharedAt j = some p) (hd : p.data_ = some d)
    (hb : s.block d = some o) (h1 : 1 ≤ o.count) (h2 : o.count + 1 < SIZE) :
    AliasPost s j d o.count o ptr := by
  have hj := sharedAt_lt hp
  have hne : j ≠ s.shared.length := Nat.ne_of_lt hj
  have hh := (block_eq_some.mp hb).2
  -- state after the aliasing constructor
  have hb0 : (s.newShared { ptr_ := ptr, data_ := some d }).block d = some o := hb
  have e1 : SharedPtr.aliasCtor s j ptr =
      some ((s.newShared { ptr_ := ptr, data_ := some d }).putCount d o (o.count + 1)) := by
    simp only [SharedPtr.aliasCtor, hp, hd, Option.bind_eq_bind, Option.some_bind]
    rw [incCount_eq hb0, Nat.mod_eq_of_lt h2]
  have hsub1 : ((s.newShared { ptr_ := ptr, data_ := some d }).putCount d o
      (o.count + 1)).sharedAt s.shared.length = some { ptr_ := ptr, data_ := some d } := by
    rw [putCount_sharedAt]; exact sharedAt_newShared_self s _
  have hown1 : ((s.newShared { ptr_ := ptr, data_ := some d }).putCount d o
      (o.count + 1)).sharedAt j = some p := by
    rw [putCount_sharedAt, sharedAt_newShared_of_lt _ _ hj]; exact hp
  have hb1 : ((s.newShared { ptr_ := ptr, data_ := some d }).putCount d o
      (o.count + 1)).block d = some { o with count := o.count + 1 } := by
    rw [block_putCount hb0]; simp
  have hc1 := GetCount_of_block hb1
  -- state after the destructor of the owner
  have e2 := dtor_eq hown1 hd hb1 (by simp) (by simpa using h2)
  have hdec : decide (({ o with count := o.count + 1 } : StoredObject).count = 1) = false := by
    simp; omega
  rw [hdec] at e2
  have hb2 : ((((s.newShared { ptr_ := ptr, data_ := some d }).putCount d o
      (o.count + 1)).dropCount d { o with count := o.count + 1 } false).endShared j).block d =
      some { o with count := o.count } := by
    rw [endShared_block, block_dropCount hb1]; simp
  have hsub2 : ((((s.newShared { ptr_ := ptr, data_ := some d }).putCount d o
      (o.count + 1)).dropCount d { o with count := o.count + 1 } false).endShared j).sharedAt
      s.shared.length = some { ptr_ := ptr, data_ := some d } := by
    have : ((((s.newShared { ptr_ := ptr, data_ := some d }).putCount d o
      (o.count + 1)).dropCount d { o with count := o.count + 1 } false).endShared j).sharedAt
      s.shared.length = ((s.newShared { ptr_ := ptr, data_ := some d }).putCount d o
      (o.count + 1)).sharedAt s.shared.length := by
      simp [State.sharedAt, State.endShared, List.getElem?_set_ne hne, State.dropCount]
    rw [this, hsub1]
  have hc2 := GetCount_of_block hb2
  -- state after the destructor of the alias
  have e3 := dtor_eq hsub2 rfl hb2 h1 (by simp only []; omega)
  refine ⟨_, _, _, e1, ?_, ?_, ?_, ?_, e2, ?_, ?_, ?_, ?_, e3, ?_, ?_⟩
  · simp [State.Get, hsub1, SharedPtr.Get]
  · simp [hsub1]
  · simp only [State.UseCount, hsub1, Option.some_bind, SharedPtr.UseCount, hc1]
  · simp only [State.UseCount, hown1, Option.some_bind, SharedPtr.UseCount, hd, hc1]
  · simp only [State.UseCount, hsub2, Option.some_bind, SharedPtr.UseCount, hc2]
  · simp [State.Get, hsub2, SharedPtr.Get]
  · simp [dropCount_freed]
  · simp [dropCount_deleted]
  · intro hn1
    simp [dropCount_freed, dropCount_deleted, hn1, StoredObject.destroys]
  · intro hn1
    simp only [endShared_freed, endShared_deleted, endShared_GetCount, dropCount_freed,
      dropCount_deleted, GetCount_dropCount hb2]
    simp [hn1]

theorem ResetPtr_general (s : State) (i : Nat) (p : SharedPtr) (q : Ptr) (hv : s.Valid)
    (hp : s.sharedAt i = some p) :
    ∃ s1, SharedPtr.ResetPtr s i q = some s1 ∧ ResetPtrPost s i p q s1 := by
  have hi := sharedAt_lt hp
  have hnone : s.heap[s.heap.length]? = none := List.getElem?_eq_none (Nat.le_refl _)
  -- the final part, common to both branches: `t` is the state after the release sequence
  have fin : ∀ t : State, t.heap.length = s.heap.length → (∀ d ∈ t.freed, d < t.heap.length) →
      t.shared = s.shared →
      ∃ s1, ((t.newDefaultObj q).setShared i { ptr_ := q, data_ := some s.heap.length }).setCountOne
        s.heap.length = some s1 ∧ s1.UseCount i = some 1 ∧ s1.Get i = some q ∧
        (s1.sharedAt i).map SharedPtr.data_ = some (some s.heap.length) ∧
        (∀ k, k ≠ i → s1.sharedAt k = s.sharedAt k) ∧
        (∀ k, k ≠ s.heap.length → s1.GetCount k = t.GetCount k) := by
    intro t hlen hfr hsh
    have hb := newDefaultObj_block hfr q t.heap.length
    simp only [if_true] at hb
    rw [hlen] at hb
    have hb1 : ((t.newDefaultObj q).setShared i
        { ptr_ := q, data_ := some s.heap.length }).block s.heap.length =
        some { count := 0, weakCount := 0, ptr_ := q, obj := none } := hb
    have hit : i < (t.newDefaultObj q).shared.length := by
      rw [newDefaultObj_shared, hsh]; exact hi
    have hself : (((t.newDefaultObj q).setShared i
        { ptr_ := q, data_ := some s.heap.length }).putCount s.heap.length
        { count := 0, weakCount := 0, ptr_ := q, obj := none } 1).sharedAt i =
        some { ptr_ := q, data_ := some s.heap.length } := by
      rw [putCount_sharedAt]; exact sharedAt_setShared_self _ _ hit
    refine ⟨_, setCountOne_eq hb1, ?_, ?_, ?_, ?_, ?_⟩
    · simp only [State.UseCount, hself, Option.some_bind, SharedPtr.UseCount]
      rw [GetCount_putCount hb1]; simp
    · simp [State.Get, hself, SharedPtr.Get]
    · simp [hself]
    · intro k hk
      rw [putCount_sharedAt, sharedAt_setShared_of_ne _ _ (Ne.symm hk)]
      simp [State.sharedAt, hsh]
    · intro k hk
      rw [GetCount_putCount hb1]
      simp only [hk, if_false, setShared_GetCount]
      unfold State.GetCount
      have := newDefaultObj_block hfr q k
      rw [hlen] at this
      simp only [hk, if_false] at this
      rw [this]
  obtain ⟨pp, pd⟩ := p
  cases pd with
  | none =>
    obtain ⟨s1, e, a1, a2, a3, a4, a5⟩ := fin s rfl hv.2.1 rfl
    refine ⟨s1, ?_, a1, a2, a3, hnone, by simp, a4, ?_, ?_⟩
    · simpa [SharedPtr.ResetPtr, hp] using e
    · intro k pk _ _ h1 h2; exact absurd h2 h1
    · intro k pk hk hpk _
      have hk1 := a4 k hk
      simp only [State.UseCount, hk1, hpk, Option.some_bind]
      cases hd : pk.data_ with
      | none => simp [SharedPtr.UseCount, hd]
      | some e' =>
        obtain ⟨o', hb', _⟩ := valid_block hv hpk hd
        have hlt : e' < s.heap.length := (List.getElem?_eq_some.mp (block_eq_some.mp hb').2).1
        simp only [SharedPtr.UseCount, hd]
        exact a5 e' (Nat.ne_of_lt hlt)
  | some d =>
    obtain ⟨o, hb, h1, h2, hr⟩ := valid_block hv hp rfl
    have hh := (block_eq_some.mp hb).2
    have hdlt : d < s.heap.length := (List.getElem?_eq_some.mp hh).1
    rw [ResetPtr_eq q hp rfl hb h1 h2]
    have hfr : ∀ k ∈ (s.dropCount d o (decide (o.count = 1 ∧ pp ≠ q))).freed,
        k < (s.dropCount d o (decide (o.count = 1 ∧ pp ≠ q))).heap.length := by
      intro k hk
      rw [dropCount_heap_length]
      rw [dropCount_freed] at hk
      split at hk
      · rcases List.mem_cons.mp hk with rfl | hk
        · exact hdlt
        · exact hv.2.1 k hk
      · exact hv.2.1 k hk
    obtain ⟨s1, e, a1, a2, a3, a4, a5⟩ := fin (s.dropCount d o (decide (o.count = 1 ∧ pp ≠ q)))
      (dropCount_heap_length _ _ _ _) hfr (dropCount_shared _ _ _ _)
    refine ⟨s1, e, a1, a2, a3, hnone, ?_, a4, ?_, ?_⟩
    · intro h; cases h; exact Nat.lt_irrefl _ hdlt
    · intro k pk hk hpk _ hsame
      have hk1 := a4 k hk
      have h2r : 2 ≤ s.refs d := refs_two hk hpk hp hsame rfl
      refine ⟨o.count - 1, ?_, ?_⟩
      · simp only [State.UseCount, hpk, Option.some_bind, SharedPtr.UseCount, hsame,
          GetCount_of_block hb]
        congr 1; omega
      · simp only [State.UseCount, hk1, hpk, Option.some_bind, SharedPtr.UseCount, hsame]
        rw [a5 d (Nat.ne_of_lt hdlt), GetCount_dropCount hb]
        have : ¬ (o.count = 1 ∧ pp ≠ q) := fun h => by omega
        simp [this]
    · intro k pk hk hpk hdiff
      have hk1 := a4 k hk
      simp only [State.UseCount, hk1, hpk, Option.some_bind]
      cases hd : pk.data_ with
      | none => simp [SharedPtr.UseCount, hd]
      | some e' =>
        obtain ⟨o', hb', _⟩ := valid_block hv hpk hd
        have hlt : e' < s.heap.length := (List.getElem?_eq_some.mp (block_eq_some.mp hb').2).1
        have hne : e' ≠ d := by
          intro h; apply hdiff; rw [hd, h]
        simp only [SharedPtr.UseCount, hd]
        rw [a5 e' (Nat.ne_of_lt hlt), GetCount_dropCount hb]
        simp [hne]

/-- Every state reached in fewer than `2 ^ 64` operations is well-formed. -/
theorem reach_valid {n : Nat} {s : State} (h : Reach n s) (hn : n < SIZE) : s.Valid :=
  (reach_inv h hn).valid hn

theorem makeShared_props (s : State) (v : Int) (hf : ∀ k ∈ s.freed, k < s.heap.length) :
    ∃ s1, MakeShared s v = some s1 ∧
      s1.sharedAt s.shared.length =
        some { ptr_ := Ptr.embedded s.heap.length, data_ := some s.heap.length } ∧
      s1.block s.heap.length =
        some { count := 1, weakCount := 0, ptr_ := Ptr.embedded s.heap.length,
               obj := some v } ∧
      s1.freed = s.freed ∧ s1.deleted = s.deleted ∧
      s1.shared.length = s.shared.length + 1 ∧ s1.heap.length = s.heap.length + 1 := by
  have hb := newMakeSharedObj_block hf v s.heap.length
  simp only [if_true] at hb
  have hb1 : ((s.newMakeSharedObj v).newShared
      { ptr_ := Ptr.embedded s.heap.length, data_ := some s.heap.length }).block
      s.heap.length =
      some { count := 0, weakCount := 0, ptr_ := Ptr.embedded s.heap.length,
             obj := some v } := hb
  refine ⟨((s.newMakeSharedObj v).newShared
      { ptr_ := Ptr.embedded s.heap.length, data_ := some s.heap.length }).putCount
      s.heap.length
      { count := 0, weakCount := 0, ptr_ := Ptr.embedded s.heap.length, obj := some v } 1,
    ?_, ?_, ?_, rfl, rfl, ?_, ?_⟩
  · simp only [MakeShared]
    rw [incCount_eq hb1]
    rfl
  · rw [putCount_sharedAt]
    exact sharedAt_newShared_self (s.newMakeSharedObj v) _
  · rw [block_putCount hb1]
    simp only [if_true]
  · simp
  · simp

theorem copy_props (s : State) (j d : Nat) (p : SharedPtr) (o : StoredObject)
    (hp : s.sharedAt j = some p) (hd : p.data_ = some d) (hb : s.block d = some o)
    (h2 : o.count + 1 < SIZE) :
    ∃ s1, SharedPtr.copyCtor s j = some s1 ∧ s1.sharedAt j = some p ∧
      s1.sharedAt s.shared.length = some { ptr_ := p.ptr_, data_ := some d } ∧
      s1.block d = some { o with count := o.count + 1 } ∧
      s1.freed = s.freed ∧ s1.deleted = s.deleted ∧
      s1.shared.length = s.shared.length + 1 := by
  have hb0 : (s.newShared { ptr_ := p.ptr_, data_ := some d }).block d = some o := hb
  refine ⟨(s.newShared { ptr_ := p.ptr_, data_ := some d }).putCount d o (o.count + 1),
    ?_, ?_, ?_, ?_, rfl, rfl, ?_⟩
  · simp only [SharedPtr.copyCtor, hp, hd, Option.bind_eq_bind, Option.some_bind]
    rw [incCount_eq hb0, Nat.mod_eq_of_lt h2]
  · rw [putCount_sharedAt, sharedAt_newShared_of_lt _ _ (sharedAt_lt hp)]; exact hp
  · rw [putCount_sharedAt]; exact sharedAt_newShared_self s _
  · rw [block_putCount hb0]; simp
  · simp

theorem reset_props (s : State) (i d : Nat) (p : SharedPtr) (o : StoredObject)
    (hp : s.sharedAt i = some p) (hd : p.data_ = some d) (hb : s.block d = some o)
    (h1 : 2 ≤ o.count) (h2 : o.count < SIZE) :
    ∃ s1, SharedPtr.Reset s i = some s1 ∧
      s1.sharedAt i = some { ptr_ := Ptr.null, data_ := none } ∧
      (∀ k, k ≠ i → s1.sharedAt k = s.sharedAt k) ∧
      s1.block d = some { o with count := o.count - 1 } ∧
      s1.freed = s.freed ∧ s1.deleted = s.deleted := by
  have hne : ¬ o.count = 1 := by omega
  refine ⟨_, Reset_eq hp hd hb (by omega) h2, ?_, ?_, ?_, ?_, ?_⟩
  · exact sharedAt_setShared_self _ _ (by simpa using sharedAt_lt hp)
  · intro k hk
    rw [sharedAt_setShared_of_ne _ _ (Ne.symm hk), dropCount_sharedAt]
  · rw [setShared_block, block_dropCount hb]; simp [hne]
  · simp [dropCount_freed, hne]
  · simp [dropCount_deleted, hne]

theorem makeShared_scenario (s : State) (v : Int) (hf : ∀ k ∈ s.freed, k < s.heap.length) :
    MakeSharedScenario s v := by
  obtain ⟨s1, e1, a1, b1, f1, d1, l1, _⟩ := makeShared_props s v hf
  obtain ⟨s2, e2, a2, n2, b2, f2, d2, _⟩ := copy_props s1 s.shared.length s.heap.length _ _
    a1 rfl b1 (by show 1 + 1 < SIZE; decide)
  obtain ⟨s3, e3, a3, o3, b3, f3, d3⟩ := reset_props s2 s.shared.length s.heap.length _ _
    a2 rfl b2 (by show 2 ≤ 1 + 1; decide) (by show 1 + 1 < SIZE; decide)
  have hb3 : s3.sharedAt (s.shared.length + 1) =
      some { ptr_ := Ptr.embedded s.heap.length, data_ := some s.heap.length } := by
    rw [o3 _ (by omega), ← l1]; exact n2
  have c3 : s3.block s.heap.length =
      some { count := 1, weakCount := 0, ptr_ := Ptr.embedded s.heap.length,
             obj := some v } := b3
  refine ⟨s1, s2, s3, e1, ?_, ?_, b1, ?_, e2, e3, ?_, ?_, ?_, ?_, ?_, ?_, c3, ?_, ?_⟩
  · simp only [State.UseCount, a1, Option.some_bind, SharedPtr.UseCount,
      GetCount_of_block b1]
  · simp only [State.Get, a1, Option.map_some', SharedPtr.Get]
  · simp only [State.deref, a1, Option.some_bind, SharedPtr.deref, b1]
  · simp only [State.Get, a3, Option.map_some', SharedPtr.Get]
  · simp only [State.UseCount, a3, Option.some_bind, SharedPtr.UseCount]
  · simp [State.toBool, a3, SharedPtr.toBool]
  · simp only [State.UseCount, hb3, Option.some_bind, SharedPtr.UseCount,
      GetCount_of_block c3]
  · simp only [State.Get, hb3, Option.map_some', SharedPtr.Get]
  · simp only [State.deref, hb3, Option.some_bind, SharedPtr.deref, c3]
  · rw [f3, f2, f1]
  · rw [d3, d2, d1]

theorem decCount_shared {s t : State} {d : Nat} (h : s.decCount d = some t) :
    t.shared = s.shared := by
  unfold State.decCount at h
  cases hb : s.block d with
  | none => simp [hb] at h
  | some o => simp [hb] at h; subst h; rfl

theorem deleteBlock_shared {s t : State} {d : Nat} (h : s.deleteBlock d = some t) :
    t.shared = s.shared := by
  unfold State.deleteBlock at h
  cases hb : s.block d with
  | none => simp [hb] at h
  | some o => simp [hb] at h; subst h; rfl

theorem decWeak_weak {s t : State} {d : Nat} (h : s.decWeak d = some t) :
    t.weak = s.weak := by
  unfold State.decWeak at h
  cases hb : s.block d with
  | none => simp [hb] at h
  | some o => simp [hb] at h; subst h; rfl

theorem deleteBlock_weak {s t : State} {d : Nat} (h : s.deleteBlock d = some t) :
    t.weak = s.weak := by
  unfold State.deleteBlock at h
  cases hb : s.block d with
  | none => simp [hb] at h
  | some o => simp [hb] at h; subst h; rfl

theorem release_weak {s t : State} {d : Nat} (h : WeakPtr.release s d = some t) :
    t.weak = s.weak := by
  unfold WeakPtr.release at h
  simp only [Option.bind_eq_bind] at h
  cases h1 : s.decWeak d with
  | none => simp [h1] at h
  | some s1 =>
    simp only [h1, Option.some_bind] at h
    cases h2 : s1.GetCount d with
    | none => simp [h2] at h
    | some c =>
      simp only [h2, Option.some_bind] at h
      cases h3 : s1.GetWeakCount d with
      | none => simp [h3] at h
      | some w =>
        simp only [h3, Option.some_bind] at h
        split at h
        · rw [deleteBlock_weak h, decWeak_weak h1]
        · cases h; exact decWeak_weak h1

theorem weakAt_setWeak_self (s : State) (w : WeakPtr) {i : Nat} (h : i < s.weak.length) :
    (s.setWeak i w).weakAt i = some w := by
  simp [State.weakAt, State.setWeak, h]

theorem weakAt_lt {s : State} {i : Nat} {w : WeakPtr} (h : s.weakAt i = some w) :
    i < s.weak.length := by
  unfold State.weakAt at h
  split at h
  · next q hq => exact (List.getElem?_eq_some.mp hq).1
  · cases h

/-- After a successful `Reset()` the `SharedPtr` is empty. -/
theorem Reset_sharedAt {s s1 : State} {i : Nat} (h : SharedPtr.Reset s i = some s1) :
    ∃ p, s1.sharedAt i = some p ∧ p.data_ = none := by
  obtain ⟨p, hp, h⟩ := sharedAt_some_of_bind h
  have hi := sharedAt_lt hp
  cases hd : p.data_ with
  | none =>
    simp only [hd, Option.some.injEq] at h
    subst h
    exact ⟨p, hp, hd⟩
  | some d =>
    simp only [hd, Option.bind_eq_bind] at h
    cases h1 : s.decCount d with
    | none => simp [h1] at h
    | some t1 =>
      simp only [h1, Option.some_bind] at h
      cases h2 : t1.GetCount d with
      | none => simp [h2] at h
      | some c =>
        simp only [h2, Option.some_bind] at h
        have fin : ∀ t : State, t.shared = s.shared →
            (t.setShared i { ptr_ := Ptr.null, data_ := none }).sharedAt i =
              some { ptr_ := Ptr.null, data_ := none } := by
          intro t ht
          exact sharedAt_setShared_self _ _ (by rw [ht]; exact hi)
        split at h
        · cases h3 : t1.deleteBlock d with
          | none => simp [h3] at h
          | some t2 =>
            simp only [h3, Option.some_bind, Option.some.injEq] at h
            subst h
            exact ⟨_, fin t2 (by rw [deleteBlock_shared h3, decCount_shared h1]), rfl⟩
        · simp only [Option.some.injEq] at h
          subst h
          exact ⟨_, fin t1 (decCount_shared h1), rfl⟩

/-- After a successful `Reset()` the raw pointer of the `WeakPtr` is null. -/
theorem weakReset_weakAt {s s1 : State} {i : Nat} (h : WeakPtr.Reset s i = some s1) :
    ∃ w, s1.weakAt i = some w ∧ w.ptr_ = Ptr.null := by
  unfold WeakPtr.Reset at h
  simp only [Option.bind_eq_bind] at h
  cases hw : s.weakAt i with
  | none => simp [hw] at h
  | some w =>
    have hi := weakAt_lt hw
    simp only [hw, Option.some_bind] at h
    by_cases hn : w.ptr_ = Ptr.null
    · simp only [hn, if_true, Option.some.injEq] at h
      subst h
      exact ⟨w, hw, hn⟩
    · simp only [hn, if_false] at h
      cases hd : w.data_ with
      | none => simp [hd] at h
      | some d =>
        simp only [hd, Option.some_bind] at h
        cases hr : WeakPtr.release s d with
        | none => simp [hr] at h
        | some t =>
          simp only [hr, Option.some_bind, Option.some.injEq] at h
          subst h
          exact ⟨_, weakAt_setWeak_self _ _ (by rw [release_weak hr]; exact hi), rfl⟩

theorem incWeak_eq {s : State} {d : Nat} {o : StoredObject} (h : s.block d = some o) :
    s.incWeak d = some (s.putWeak d o ((o.weakCount + 1) % SIZE)) := by
  simp [State.incWeak, h, State.putWeak]

theorem block_putWeak {s : State} {d : Nat} {o : StoredObject} (h : s.block d = some o)
    (w k : Nat) :
    (s.putWeak d o w).block k = if k = d then some { o with weakCount := w } else s.block k := by
  obtain ⟨hf, hh⟩ := block_eq_some.mp h
  have hd : d < s.heap.length := (List.getElem?_eq_some.mp hh).1
  by_cases hk : k = d
  · subst hk
    simp [State.block, State.putWeak, hf, hd]
  · simp [State.block, State.putWeak, hk, List.getElem?_set_ne (Ne.symm hk)]

theorem GetCount_putWeak {s : State} {d : Nat} {o : StoredObject} (h : s.block d = some o)
    (w k : Nat) : (s.putWeak d o w).GetCount k = s.GetCount k := by
  unfold State.GetCount
  rw [block_putWeak h]
  by_cases hk : k = d
  · subst hk; simp [h]
  · simp [hk]

theorem weakAt_newWeak_self (s : State) (w : WeakPtr) :
    (s.newWeak w).weakAt s.weak.length = some w := by
  simp [State.weakAt, State.newWeak]

theorem lock_general (s : State) (i : Nat) (w : WeakPtr) (hw : s.weakAt i = some w) :
    LockPost s i w := by
  refine ⟨?_, ?_, ?_, ?_⟩
  · intro hd
    simp [WeakPtr.Lock, hw, hd]
  · intro d hd hc
    simp [WeakPtr.Lock, hw, hd, hc]
  · intro d c hd hc hne hlt
    obtain ⟨o, hb, hoc⟩ := GetCount_eq_some hc
    have hb0 : (s.newShared { ptr_ := w.ptr_, data_ := some d }).block d = some o := hb
    refine ⟨(s.newShared { ptr_ := w.ptr_, data_ := some d }).putCount d o (c + 1), ?_, ?_, ?_⟩
    · simp only [WeakPtr.Lock, hw, hd, hc, hne, Option.bind_eq_bind, Option.some_bind,
        if_false, SharedPtr.fromWeak]
      rw [incCount_eq hb0, hoc, Nat.mod_eq_of_lt hlt]
    · rw [putCount_sharedAt]; exact sharedAt_newShared_self s _
    · rw [GetCount_putCount hb0]; simp
  · exact sharedAt_newShared_self s _

theorem demote_lock_general (s : State) (j d n : Nat) (p : SharedPtr)
    (hp : s.sharedAt j = some p) (hd : p.data_ = some d) (hc : s.GetCount d = some n)
    (h1 : 1 ≤ n) (h2 : n + 1 < SIZE) : DemoteLockPost s j d n p := by
  obtain ⟨o, hb, hoc⟩ := GetCount_eq_some hc
  have hj := sharedAt_lt hp
  obtain ⟨pp, pd⟩ := p
  simp only [] at hd
  subst hd
  -- the demotion
  have hb0 : (s.newWeak { ptr_ := pp, data_ := some d }).block d = some o := hb
  have e1 : WeakPtr.fromShared s j =
      some ((s.newWeak { ptr_ := pp, data_ := some d }).putWeak d o
        ((o.weakCount + 1) % SIZE)) := by
    simp only [WeakPtr.fromShared, hp, Option.bind_eq_bind, Option.some_bind]
    rw [incWeak_eq hb0]
  have hc1 : ((s.newWeak { ptr_ := pp, data_ := some d }).putWeak d o
      ((o.weakCount + 1) % SIZE)).GetCount d = some n := by
    rw [GetCount_putWeak hb0]; exact hc
  have hp1 : ((s.newWeak { ptr_ := pp, data_ := some d }).putWeak d o
      ((o.weakCount + 1) % SIZE)).sharedAt j = some { ptr_ := pp, data_ := some d } := hp
  have hw1 : ((s.newWeak { ptr_ := pp, data_ := some d }).putWeak d o
      ((o.weakCount + 1) % SIZE)).weakAt s.weak.length =
      some { ptr_ := pp, data_ := some d } :=
    weakAt_newWeak_self s { ptr_ := pp, data_ := some d }
  -- the promotion
  have hn0 : ¬ n = 0 := by omega
  have hb1 : (((s.newWeak { ptr_ := pp, data_ := some d }).putWeak d o
      ((o.weakCount + 1) % SIZE)).newShared { ptr_ := pp, data_ := some d }).block d =
      some { o with weakCount := (o.weakCount + 1) % SIZE } := by
    rw [newShared_block, block_putWeak hb0]; simp
  have e2 : WeakPtr.Lock ((s.newWeak { ptr_ := pp, data_ := some d }).putWeak d o
      ((o.weakCount + 1) % SIZE)) s.weak.length =
      some ((((s.newWeak { ptr_ := pp, data_ := some d }).putWeak d o
        ((o.weakCount + 1) % SIZE)).newShared { ptr_ := pp, data_ := some d }).putCount d
        { o with weakCount := (o.weakCount + 1) % SIZE } (n + 1)) := by
    simp only [WeakPtr.Lock, hw1, hc1, Option.bind_eq_bind, Option.some_bind,
      SharedPtr.fromWeak, hn0, if_false]
    rw [incCount_eq hb1]
    simp only [hoc, Nat.mod_eq_of_lt h2]
  have a2 : ((((s.newWeak { ptr_ := pp, data_ := some d }).putWeak d o
        ((o.weakCount + 1) % SIZE)).newShared { ptr_ := pp, data_ := some d }).putCount d
        { o with weakCount := (o.weakCount + 1) % SIZE } (n + 1)).sharedAt s.shared.length =
      some { ptr_ := pp, data_ := some d } := by
    rw [putCount_sharedAt]
    exact sharedAt_newShared_self ((s.newWeak { ptr_ := pp, data_ := some d }).putWeak d o
        ((o.weakCount + 1) % SIZE)) _
  have hp2 : ((((s.newWeak { ptr_ := pp, data_ := some d }).putWeak d o
        ((o.weakCount + 1) % SIZE)).newShared { ptr_ := pp, data_ := some d }).putCount d
        { o with weakCount := (o.weakCount + 1) % SIZE } (n + 1)).sharedAt j =
      some { ptr_ := pp, data_ := some d } := by
    rw [putCount_sharedAt, sharedAt_newShared_of_lt _ _ (by exact hj)]
    exact hp
  have c2 : ((((s.newWeak { ptr_ := pp, data_ := some d }).putWeak d o
        ((o.weakCount + 1) % SIZE)).newShared { ptr_ := pp, data_ := some d }).putCount d
        { o with weakCount := (o.weakCount + 1) % SIZE } (n + 1)).GetCount d = some (n + 1) := by
    rw [GetCount_putCount hb1]; simp
  refine ⟨_, _, e1, hc1, hp1, ?_, hw1, e2, a2, ?_, ?_, c2, ?_, ?_⟩
  · simp only [State.UseCount, hp1, Option.some_bind, SharedPtr.UseCount, hc1]
  · simp only [State.Get, a2, hp, Option.map_some', SharedPtr.Get]
  · simp only [State.Get, a2, Option.map_some', SharedPtr.Get]
  · simp only [State.UseCount, a2, Option.some_bind, SharedPtr.UseCount, c2]
  · simp only [State.UseCount, hp2, Option.some_bind, SharedPtr.UseCount, c2]

theorem incCount_shared {s t : State} {d : Nat} (h : s.incCount d = some t) :
    t.shared = s.shared := by
  unfold State.incCount at h
  cases hb : s.block d with
  | none => simp [hb] at h
  | some o => simp [hb] at h; subst h; rfl

theorem setCountOne_shared {s t : State} {d : Nat} (h : s.setCountOne d = some t) :
    t.shared = s.shared := by
  unfold State.setCountOne at h
  cases hb : s.block d with
  | none => simp [hb] at h
  | some o => simp [hb] at h; subst h; rfl

theorem tidy_congr {s s1 : State} (h : s.Tidy) (hs : s1.shared = s.shared) : s1.Tidy := by
  unfold State.Tidy
  rw [hs]
  exact h

theorem tidy_at {s : State} (h : s.Tidy) {i : Nat} {p : SharedPtr}
    (hp : s.sharedAt i = some p) (hd : p.data_ = none) : p.ptr_ = Ptr.null :=
  h (some p) (List.mem_iff_getElem?.mpr ⟨i, sharedAt_eq_some.mp hp⟩) p rfl hd

theorem tidy_setShared {s : State} (h : s.Tidy) (i : Nat) {p : SharedPtr}
    (hp : p.data_ = none → p.ptr_ = Ptr.null) : (s.setShared i p).Tidy := by
  intro x hx q hq hd
  rcases List.mem_or_eq_of_mem_set hx with hx | hx
  · exact h x hx q hq hd
  · rw [hq] at hx
    cases hx
    exact hp hd

theorem tidy_newShared {s : State} (h : s.Tidy) {p : SharedPtr}
    (hp : p.data_ = none → p.ptr_ = Ptr.null) : (s.newShared p).Tidy := by
  intro x hx q hq hd
  simp only [State.newShared, List.mem_append, List.mem_singleton] at hx
  rcases hx with hx | hx
  · exact h x hx q hq hd
  · rw [hq] at hx
    cases hx
    exact hp hd

theorem tidy_endShared {s : State} (h : s.Tidy) (i : Nat) : (s.endShared i).Tidy := by
  intro x hx q hq hd
  rcases List.mem_or_eq_of_mem_set hx with hx | hx
  · exact h x hx q hq hd
  · rw [hq] at hx
    cases hx

/-- One operation, started in a state that satisfies the invariant, keeps the instances
without a block at a null raw pointer. -/
theorem tidy_step {n : Nat} {s s1 : State} (hI : Inv n s) (hn : n < SIZE) (ht : s.Tidy)
    (op : Op) (hs : step s op = some s1) : s1.Tidy := by
  have hsome : ∀ (x : Ptr) (d : Nat), ({ ptr_ := x, data_ := some d } : SharedPtr).data_ = none →
      ({ ptr_ := x, data_ := some d } : SharedPtr).ptr_ = Ptr.null := by
    intro x d h; cases h
  cases op with
  | ctorDefault =>
    simp only [step, SharedPtr.ctorDefault, Option.some.injEq] at hs
    subst hs
    exact tidy_newShared ht (fun _ => rfl)
  | ctorNull =>
    simp only [step, SharedPtr.ctorNull, Option.some.injEq] at hs
    subst hs
    exact tidy_newShared ht (fun _ => rfl)
  | ctorRaw ptr =>
    simp only [step, SharedPtr.ctorRaw] at hs
    exact tidy_congr (tidy_newShared (s := s.newDefaultObj ptr) ht (hsome _ _))
      (incCount_shared hs)
  | makeShared el =>
    simp only [step, MakeShared] at hs
    exact tidy_congr (tidy_newShared (s := s.newMakeSharedObj el) ht (hsome _ _))
      (incCount_shared hs)
  | copyCtor j =>
    obtain ⟨p, hp, hs⟩ := sharedAt_some_of_bind hs
    cases hd : p.data_ with
    | none =>
      simp only [hd, Option.some.injEq] at hs
      subst hs
      exact tidy_newShared ht (fun _ => rfl)
    | some d =>
      simp only [hd] at hs
      exact tidy_congr (tidy_newShared ht (hsome _ _)) (incCount_shared hs)
  | copyCtorConv j =>
    obtain ⟨p, hp, hs⟩ := sharedAt_some_of_bind hs
    cases hd : p.data_ with
    | none =>
      simp only [hd, Option.some.injEq] at hs
      subst hs
      exact tidy_newShared ht (fun _ => rfl)
    | some d =>
      simp only [hd] at hs
      exact tidy_congr (tidy_newShared ht (hsome _ _)) (incCount_shared hs)
  | moveCtor j =>
    obtain ⟨p, hp, hs⟩ := sharedAt_some_of_bind hs
    cases hd : p.data_ with
    | none =>
      simp only [hd, Option.some.injEq] at hs
      subst hs
      exact tidy_newShared (tidy_setShared ht j (fun _ => rfl)) (fun _ => rfl)
    | some d =>
      simp only [hd, Option.some.injEq] at hs
      subst hs
      exact tidy_newShared (tidy_setShared ht j (fun _ => rfl)) (hsome _ _)
  | moveCtorConv j =>
    obtain ⟨p, hp, hs⟩ := sharedAt_some_of_bind hs
    cases hd : p.data_ with
    | none =>
      simp only [hd, Option.some.injEq] at hs
      subst hs
      exact tidy_newShared (tidy_setShared ht j (fun _ => rfl)) (fun _ => rfl)
    | some d =>
      simp only [hd, Option.some.injEq] at hs
      subst hs
      exact tidy_newShared (tidy_setShared ht j (fun _ => rfl)) (hsome _ _)
  | aliasCtor j ptr =>
    obtain ⟨p, hp, hs⟩ := sharedAt_some_of_bind hs
    cases hd : p.data_ with
    | none => simp [hd] at hs
    | some d =>
      simp only [hd, Option.bind_eq_bind, Option.some_bind] at hs
      exact tidy_congr (tidy_newShared ht (hsome _ _)) (incCount_shared hs)
  | copyAssign i j =>
    have hs0 : SharedPtr.copyAssign s i j = some s1 := hs
    obtain ⟨pa, ha, hs⟩ := sharedAt_some_of_bind hs
    obtain ⟨pb, hb, hs⟩ := sharedAt_some_of_bind hs
    have hpb : ({ ptr_ := pb.ptr_, data_ := pb.data_ } : SharedPtr).data_ = none →
        ({ ptr_ := pb.ptr_, data_ := pb.data_ } : SharedPtr).ptr_ = Ptr.null :=
      fun h => tidy_at ht hb h
    by_cases hij : i = j
    · simp only [hij, if_true, Option.some.injEq] at hs
      subst hs; exact ht
    · cases hda : pa.data_ with
      | none =>
        simp only [hij, if_false, hda] at hs
        cases hdb : pb.data_ with
        | none =>
          simp only [hdb, Option.some.injEq] at hs
          subst hs
          exact tidy_setShared ht i (fun _ => (tidy_at ht hb hdb : pb.ptr_ = Ptr.null))
        | some e =>
          simp only [hdb] at hs
          exact tidy_congr (tidy_setShared ht i (hsome _ _)) (incCount_shared hs)
      | some d0 =>
        obtain ⟨o0, hb0, h01, h02, _⟩ := hI.block ha hda
        rw [copyAssign_eq hij ha hb hda hb0 h01 (by omega)] at hs0
        have hT : ((s.dropCount d0 o0 (decide (o0.count = 1))).setShared i
            { ptr_ := pb.ptr_, data_ := pb.data_ }).Tidy :=
          tidy_setShared (tidy_congr ht (dropCount_shared _ _ _ _)) i hpb
        cases hdb : pb.data_ with
        | none =>
          simp only [hdb, Option.some.injEq] at hs0
          subst hs0
          rw [hdb] at hT
          exact hT
        | some e =>
          simp only [hdb] at hs0
          rw [hdb] at hT
          exact tidy_congr hT (incCount_shared hs0)
  | moveAssign i j =>
    have hs0 : SharedPtr.moveAssign s i j = some s1 := hs
    obtain ⟨pa, ha, hs⟩ := sharedAt_some_of_bind hs
    obtain ⟨pb, hb, hs⟩ := sharedAt_some_of_bind hs
    have hpb : ({ ptr_ := pb.ptr_, data_ := pb.data_ } : SharedPtr).data_ = none →
        ({ ptr_ := pb.ptr_, data_ := pb.data_ } : SharedPtr).ptr_ = Ptr.null :=
      fun h => tidy_at ht hb h
    by_cases hij : i = j
    · simp only [hij, if_true, Option.some.injEq] at hs
      subst hs; exact ht
    · cases hda : pa.data_ with
      | none =>
        simp only [hij, if_false, hda] at hs
        have hT : ((s.setShared i { ptr_ := pb.ptr_, data_ := pb.data_ }).setShared j
            { ptr_ := Ptr.null, data_ := none }).Tidy :=
          tidy_setShared (tidy_setShared ht i hpb) j (fun _ => rfl)
        cases hdb : pb.data_ with
        | none =>
          simp only [hdb, Option.some.injEq] at hs
          subst hs
          rw [hdb] at hT
          exact hT
        | some e =>
          simp only [hdb] at hs
          rw [hdb] at hT
          exact tidy_congr hT (incCount_shared hs)
      | some d0 =>
        obtain ⟨o0, hb0, h01, h02, _⟩ := hI.block ha hda
        rw [moveAssign_eq hij ha hb hda hb0 h01 (by omega)] at hs0
        simp only [Option.some.injEq] at hs0
        subst hs0
        exact tidy_setShared (tidy_setShared (tidy_congr ht (dropCount_shared _ _ _ _)) i hpb)
          j (fun _ => rfl)
  | dtor i =>
    have hs0 : SharedPtr.dtor s i = some s1 := hs
    obtain ⟨p, hp, hs⟩ := sharedAt_some_of_bind hs
    cases hd : p.data_ with
    | none =>
      simp only [hd, Option.some.injEq] at hs
      subst hs
      exact tidy_endShared ht i
    | some d =>
      obtain ⟨o, hb, h1, h2, _⟩ := hI.block hp hd
      rw [dtor_eq hp hd hb h1 (by omega)] at hs0
      simp only [Option.some.injEq] at hs0
      subst hs0
      exact tidy_endShared (tidy_congr ht (dropCount_shared _ _ _ _)) i
  | reset i =>
    have hs0 : SharedPtr.Reset s i = some s1 := hs
    obtain ⟨p, hp, hs⟩ := sharedAt_some_of_bind hs
    cases hd : p.data_ with
    | none =>
      simp only [hd, Option.some.injEq] at hs
      subst hs
      exact ht
    | some d =>
      obtain ⟨o, hb, h1, h2, _⟩ := hI.block hp hd
      rw [Reset_eq hp hd hb h1 (by omega)] at hs0
      simp only [Option.some.injEq] at hs0
      subst hs0
      exact tidy_setShared (tidy_congr ht (dropCount_shared _ _ _ _)) i (fun _ => rfl)
  | resetPtr i ptr =>
    have hs0 : SharedPtr.ResetPtr s i ptr = some s1 := hs
    obtain ⟨p, hp, hs⟩ := sharedAt_some_of_bind hs
    cases hd : p.data_ with
    | none =>
      simp only [hd] at hs
      exact tidy_congr (tidy_setShared (s := s.newDefaultObj ptr) ht i (hsome _ _))
        (setCountOne_shared hs)
    | some d =>
      obtain ⟨o, hb, h1, h2, _⟩ := hI.block hp hd
      rw [ResetPtr_eq ptr hp hd hb h1 (by omega)] at hs0
      have hT : (s.dropCount d o (decide (o.count = 1 ∧ p.ptr_ ≠ ptr))).Tidy :=
        tidy_congr ht (dropCount_shared _ _ _ _)
      exact tidy_congr (tidy_setShared
        (s := (s.dropCount d o (decide (o.count = 1 ∧ p.ptr_ ≠ ptr))).newDefaultObj ptr)
        hT i (hsome _ _)) (setCountOne_shared hs0)
  | swap i j =>
    obtain ⟨pa, ha, hs⟩ := sharedAt_some_of_bind hs
    obtain ⟨pb, hb, hs⟩ := sharedAt_some_of_bind hs
    simp only [Option.some.injEq] at hs
    subst hs
    exact tidy_setShared (tidy_setShared ht i (fun h => tidy_at ht hb h)) j
      (fun h => tidy_at ht ha h)

theorem reach_tidy {n : Nat} {s : State} (h : Reach n s) (hn : n < SIZE) : s.Tidy := by
  induction h with
  | init => intro x hx; simp [State.init] at hx
  | step op hr _ hs ih =>
    exact tidy_step (reach_inv hr (by omega)) (by omega) (ih (by omega)) op hs

theorem reach_exOne : Reach 1 exOne :=
  Reach.step (Op.ctorRaw (Ptr.addr 1)) Reach.init
    (Or.inr ⟨⟨1, rfl⟩, by intro o ho; simp [State.init] at ho⟩) (by decide)

theorem reach_exNull : Reach 1 exNull :=
  Reach.step (Op.ctorRaw Ptr.null) Reach.init (Or.inl rfl) (by decide)

theorem observers_general {n : Nat} {s : State} (hI : Inv n s) (ht : s.Tidy) (i : Nat)
    (p : SharedPtr) (hp : s.sharedAt i = some p) :
    (∃ c, SharedPtr.UseCount s p = some c ∧ (0 < c ↔ p.data_ ≠ none)) ∧
    (p.Get ≠ Ptr.null ↔ p.toBool = true) ∧
    (p.toBool = true ↔ p.ptr_ ≠ Ptr.null) ∧
    (p.ptr_ ≠ Ptr.null → ∃ d c, p.data_ = some d ∧ s.GetCount d = some c ∧ 0 < c) := by
  have hnull : p.data_ = none → p.ptr_ = Ptr.null := fun h => tidy_at ht hp h
  cases hd : p.data_ with
  | none =>
    have hpn := hnull hd
    refine ⟨⟨0, by simp [SharedPtr.UseCount, hd], by simp⟩, ?_, ?_, ?_⟩
    · simp [SharedPtr.Get, SharedPtr.toBool, hd]
    · simp [SharedPtr.toBool, hd, hpn]
    · intro h; exact absurd hpn h
  | some d =>
    obtain ⟨o, hb, h1, _, _⟩ := hI.block hp hd
    have hc := GetCount_of_block hb
    refine ⟨⟨o.count, by simp [SharedPtr.UseCount, hd, hc], by simp; omega⟩, ?_, ?_, ?_⟩
    · simp [SharedPtr.Get, SharedPtr.toBool, hd]
    · simp [SharedPtr.toBool, hd]
    · intro _; exact ⟨d, o.count, rfl, hc, by omega⟩

/-! ## The claims -/

/-- Claim C1 (violated by the code): after `p = SharedPtr(x); q = p; q.Reset(); q = std::move(p);`
the only live non-empty instance is `q`, one instance holds block 0, and `q.UseCount()` is 2:
move assignment into an empty target increments the strong count. -/
theorem useCount_exceeds_holders :
    ∃ s, run State.init runMoveIntoReset = some s ∧
      s.sharedAt 0 = some { ptr_ := Ptr.null, data_ := none } ∧
      s.sharedAt 1 = some { ptr_ := Ptr.addr 1, data_ := some 0 } ∧
      s.shared.length = 2 ∧ s.refs 0 = 1 ∧ s.UseCount 1 = some 2 :=
  ⟨_, rfl, by decide, by decide, by decide, by decide, by decide⟩

/-- Claim C4 (violated by the code): with `p` the sole owner of block 0 and `q` empty,
`q = std::move(p)` leaves `p` empty and gives `q` the pointer of `p`, but `q.UseCount()` is 2
where `p.UseCount()` was 1: the branch for an empty target increments the strong count. -/
theorem moveAssign_into_empty_increments :
    ∃ s s1, run State.init runOwnerAndEmpty = some s ∧
      s.UseCount 0 = some 1 ∧ s.UseCount 1 = some 0 ∧
      SharedPtr.moveAssign s 1 0 = some s1 ∧
      s1.Get 1 = s.Get 0 ∧ s1.Get 0 = some Ptr.null ∧ s1.UseCount 0 = some 0 ∧
      s1.UseCount 1 = some 2 :=
  ⟨_, _, rfl, by decide, by decide, rfl, by decide, by decide, by decide, by decide⟩

/-- Claim C5: move construction from any live `SharedPtr`, by the same-type or by the converting
constructor, yields an instance whose `Get()` and `UseCount()` are those of the source before
the move, changes the strong count of no block, and leaves the source empty: `Get()` null,
`UseCount()` 0, boolean conversion false. -/
theorem moveCtor_post (s : State) (j : Nat) (p : SharedPtr) (h : s.sharedAt j = some p) :
    MoveCtorPost s j (SharedPtr.moveCtor s j) ∧ MoveCtorPost s j (SharedPtr.moveCtorConv s j) := by
  have hj := sharedAt_lt h
  have key : ∀ q r : SharedPtr, q.data_ = none → r.Get = p.Get →
      SharedPtr.UseCount s r = SharedPtr.UseCount s p →
      MoveCtorPost s j (some ((s.setShared j q).newShared r)) := by
    intro q r hq hr hu
    have hn : ((s.setShared j q).newShared r).sharedAt s.shared.length = some r := by
      have := sharedAt_newShared_self (s.setShared j q) r
      rwa [setShared_length] at this
    have ho : ((s.setShared j q).newShared r).sharedAt j = some q := by
      rw [sharedAt_newShared_of_lt _ _ (by rw [setShared_length]; exact hj)]
      exact sharedAt_setShared_self s q hj
    refine ⟨_, rfl, ?_, ?_, ?_, ?_, ?_, ?_⟩
    · simp only [State.Get, hn, h, Option.map_some', hr]
    · simp only [State.UseCount, hn, h, Option.some_bind]
      rw [← hu]; rfl
    · intro d; rfl
    · simp [State.Get, ho, SharedPtr.Get, hq]
    · simp [State.UseCount, ho, SharedPtr.UseCount, hq]
    · simp [State.toBool, ho, SharedPtr.toBool, hq]
  obtain ⟨pp, pd⟩ := p
  constructor
  · unfold SharedPtr.moveCtor
    simp only [h, Option.bind_eq_bind, Option.some_bind]
    cases pd with
    | none => exact key _ _ rfl rfl rfl
    | some d => exact key _ _ rfl rfl rfl
  · unfold SharedPtr.moveCtorConv
    simp only [h, Option.bind_eq_bind, Option.some_bind]
    cases pd with
    | none => exact key _ _ rfl rfl rfl
    | some d => exact key _ _ rfl rfl rfl

theorem moveCtor_post_witness :
    exOne.sharedAt 0 = some { ptr_ := Ptr.addr 1, data_ := some 0 } ∧
    MoveCtorPost exOne 0 (SharedPtr.moveCtor exOne 0) ∧
    MoveCtorPost exOne 0 (SharedPtr.moveCtorConv exOne 0) :=
  ⟨by decide, moveCtor_post exOne 0 { ptr_ := Ptr.addr 1, data_ := some 0 } (by decide)⟩

/-- Claim C6: copy construction from a live `SharedPtr`, by the same-type or by the converting
constructor, leaves the source unchanged; from a non-empty source holding block `d` of strong
count `c` (with `c + 1` representable) the copy holds `d`, has the same `Get()`, and the count of
`d` becomes `c + 1` while no other count changes; from an empty source the copy is empty and no
count changes. -/
theorem copyCtor_post (s : State) (j : Nat) (p : SharedPtr) (h : s.sharedAt j = some p) :
    (∀ d c, p.data_ = some d → s.GetCount d = some c → c + 1 < SIZE →
      CopySharesPost s j d c (SharedPtr.copyCtor s j) ∧
      CopySharesPost s j d c (SharedPtr.copyCtorConv s j)) ∧
    (p.data_ = none →
      CopyEmptyPost s j (SharedPtr.copyCtor s j) ∧
      CopyEmptyPost s j (SharedPtr.copyCtorConv s j)) := by
  have hj := sharedAt_lt h
  constructor
  · intro d c hd hc hlt
    obtain ⟨o, hb, hoc⟩ := GetCount_eq_some hc
    have key : CopySharesPost s j d c
        ((s.newShared { ptr_ := p.ptr_, data_ := some d }).incCount d) := by
      have hb1 : (s.newShared { ptr_ := p.ptr_, data_ := some d }).block d = some o := hb
      rw [incCount_eq hb1, hoc, Nat.mod_eq_of_lt hlt]
      refine ⟨_, rfl, ?_, ?_, ?_, ?_, ?_, ?_⟩
      · simp [sharedAt_newShared_of_lt _ _ hj]
      · simp
      · simp [State.Get, h, SharedPtr.Get, hd]
      · rw [GetCount_putCount hb1]; simp
      · simp [State.UseCount, SharedPtr.UseCount]
        rw [GetCount_putCount hb1]; simp
      · intro k hk
        rw [GetCount_putCount hb1]; simp [hk]
    constructor
    · simpa [SharedPtr.copyCtor, h, hd] using key
    · simpa [SharedPtr.copyCtorConv, h, hd] using key
  · intro hd
    have key : CopyEmptyPost s j (some (s.newShared { ptr_ := Ptr.null, data_ := none })) := by
      refine ⟨_, rfl, ?_, ?_, ?_, ?_⟩
      · simp [sharedAt_newShared_of_lt _ _ hj]
      · simp [State.Get, SharedPtr.Get]
      · simp [State.UseCount, SharedPtr.UseCount]
      · intro k; rfl
    constructor
    · simpa [SharedPtr.copyCtor, h, hd] using key
    · simpa [SharedPtr.copyCtorConv, h, hd] using key

theorem copyCtor_post_witness :
    (CopySharesPost exMixed 1 1 2 (SharedPtr.copyCtor exMixed 1) ∧
      CopySharesPost exMixed 1 1 2 (SharedPtr.copyCtorConv exMixed 1)) ∧
    (CopyEmptyPost exMixed 3 (SharedPtr.copyCtor exMixed 3) ∧
      CopyEmptyPost exMixed 3 (SharedPtr.copyCtorConv exMixed 3)) :=
  ⟨(copyCtor_post exMixed 1 { ptr_ := Ptr.addr 2, data_ := some 1 } (by decide)).1 1 2 rfl
      (by decide) (by decide),
    (copyCtor_post exMixed 3 { ptr_ := Ptr.null, data_ := none } (by decide)).2 rfl⟩

/-- Claim C8: for every live `SharedPtr` `a`, empty or not, `a = a` and `a = std::move(a)` leave the
whole program state unchanged: pointer, counters, and destroyed objects. -/
theorem self_assign_noop (s : State) (i : Nat) (p : SharedPtr) (h : s.sharedAt i = some p) :
    SharedPtr.copyAssign s i i = some s ∧ SharedPtr.moveAssign s i i = some s := by
  simp [SharedPtr.copyAssign, SharedPtr.moveAssign, h]

theorem self_assign_noop_witness :
    exOne.sharedAt 0 = some { ptr_ := Ptr.addr 1, data_ := some 0 } ∧
    SharedPtr.copyAssign exOne 0 0 = some exOne ∧ SharedPtr.moveAssign exOne 0 0 = some exOne :=
  ⟨by decide, self_assign_noop exOne 0 { ptr_ := Ptr.addr 1, data_ := some 0 } (by decide)⟩

/-- Claim C9: for a live non-empty `owner` holding block `d` with strong count `n` (`1 ≤ n`,
`n + 1` representable) and any raw pointer `ptr`, `sub = SharedPtr(owner, ptr)` has
`sub.Get() == ptr`, holds `d`, and the strong count is `n + 1`; destroying `owner` lowers
`sub.UseCount()` to `n` and destroys nothing; destroying `sub` afterwards deletes the block and
its object exactly when `n = 1`, that is when `sub` was the last owner.  When `owner` comes
fresh from `MakeShared`, `n` is 1 and `sub.UseCount()` is 2. -/
theorem aliasCtor_shares_lifetime (s : State) (ptr : Ptr) :
    (∀ j d p o, s.sharedAt j = some p → p.data_ = some d → s.block d = some o →
      1 ≤ o.count → o.count + 1 < SIZE → AliasPost s j d o.count o ptr) ∧
    (∀ el, (∀ k ∈ s.freed, k < s.heap.length) →
      ∃ sm, MakeShared s el = some sm ∧ sm.UseCount s.shared.length = some 1 ∧
        AliasPost sm s.shared.length s.heap.length 1
          { count := 1, weakCount := 0, ptr_ := Ptr.embedded s.heap.length, obj := some el }
          ptr) := by
  constructor
  · intro j d p o hp hd hb h1 h2
    exact alias_general s j d p o ptr hp hd hb h1 h2
  · intro el hf
    have hb := newMakeSharedObj_block hf el s.heap.length
    simp only [if_true] at hb
    have hb1 : ((s.newMakeSharedObj el).newShared
        { ptr_ := Ptr.embedded s.heap.length, data_ := some s.heap.length }).block
        s.heap.length =
        some { count := 0, weakCount := 0, ptr_ := Ptr.embedded s.heap.length,
               obj := some el } := hb
    have e : MakeShared s el = some (((s.newMakeSharedObj el).newShared
        { ptr_ := Ptr.embedded s.heap.length, data_ := some s.heap.length }).putCount
        s.heap.length
        { count := 0, weakCount := 0, ptr_ := Ptr.embedded s.heap.length, obj := some el }
        1) := by
      simp only [MakeShared]
      rw [incCount_eq hb1]
      rfl
    have hown : (((s.newMakeSharedObj el).newShared
        { ptr_ := Ptr.embedded s.heap.length, data_ := some s.heap.length }).putCount
        s.heap.length
        { count := 0, weakCount := 0, ptr_ := Ptr.embedded s.heap.length, obj := some el }
        1).sharedAt s.shared.length =
        some { ptr_ := Ptr.embedded s.heap.length, data_ := some s.heap.length } := by
      rw [putCount_sharedAt]
      exact sharedAt_newShared_self (s.newMakeSharedObj el) _
    have hb2 : (((s.newMakeSharedObj el).newShared
        { ptr_ := Ptr.embedded s.heap.length, data_ := some s.heap.length }).putCount
        s.heap.length
        { count := 0, weakCount := 0, ptr_ := Ptr.embedded s.heap.length, obj := some el }
        1).block s.heap.length =
        some { count := 1, weakCount := 0, ptr_ := Ptr.embedded s.heap.length,
               obj := some el } := by
      rw [block_putCount hb1]; simp
    refine ⟨_, e, ?_, ?_⟩
    · simp only [State.UseCount, hown, Option.some_bind, SharedPtr.UseCount,
        GetCount_of_block hb2]
    · have := alias_general _ s.shared.length s.heap.length _ _ ptr hown rfl hb2
        (Nat.le_refl 1) (by show 1 + 1 < SIZE; decide)
      simpa using this

theorem aliasCtor_shares_lifetime_witness :
    AliasPost exMixed 1 1 2 { count := 2, weakCount := 0, ptr_ := Ptr.addr 2, obj := none }
      (Ptr.addr 5) ∧
    ∃ sm, MakeShared exMixed 7 = some sm ∧ sm.UseCount 4 = some 1 ∧
      AliasPost sm 4 2 1
        { count := 1, weakCount := 0, ptr_ := Ptr.embedded 2, obj := some 7 } (Ptr.addr 5) :=
  ⟨(aliasCtor_shares_lifetime exMixed (Ptr.addr 5)).1 1 1
      { ptr_ := Ptr.addr 2, data_ := some 1 }
      { count := 2, weakCount := 0, ptr_ := Ptr.addr 2, obj := none }
      (by decide) rfl (by decide) (by decide) (by decide),
    (aliasCtor_shares_lifetime exMixed (Ptr.addr 5)).2 7 (by decide)⟩

/-- Claim C10: in a well-formed state, for every live `SharedPtr` `p` (empty, sole owner or one of
several owners) and every raw pointer `q`, `p.Reset(q)` succeeds; afterwards `p.UseCount() == 1`
and `p.Get() == q`, `p` holds a block that did not exist before and differs from its previous
one, every other instance keeps its fields, every other holder of the previous block of `p`
observes a `UseCount()` exactly one lower, and the holders of other blocks observe the same
`UseCount()` as before. -/
theorem ResetPtr_post (s : State) (i : Nat) (p : SharedPtr) (q : Ptr) (hv : s.Valid)
    (hp : s.sharedAt i = some p) :
    ∃ s1, SharedPtr.ResetPtr s i q = some s1 ∧ ResetPtrPost s i p q s1 :=
  ResetPtr_general s i p q hv hp

theorem ResetPtr_post_witness :
    exMixed.Valid ∧ exMixed.sharedAt 1 = some { ptr_ := Ptr.addr 2, data_ := some 1 } ∧
    ∃ s1, SharedPtr.ResetPtr exMixed 1 (Ptr.addr 9) = some s1 ∧
      ResetPtrPost exMixed 1 { ptr_ := Ptr.addr 2, data_ := some 1 } (Ptr.addr 9) s1 :=
  ⟨by decide, by decide,
    ResetPtr_post exMixed 1 { ptr_ := Ptr.addr 2, data_ := some 1 } (Ptr.addr 9)
      (by decide) (by decide)⟩

/-- Claim C11: started in any state whose deleted blocks are all allocated ones, `MakeShared<T>(v)`
returns a `SharedPtr` `a` with `a.UseCount() == 1`, `a.Get()` the address of the object
embedded in the new block and `*a == v`; after `b = a; a.Reset();` the pointer `a` is empty,
`b.UseCount() == 1`, `*b == v`, the block with its embedded object is still allocated and
nothing has been destroyed or deallocated. -/
theorem makeShared_then_reset (s : State) (v : Int)
    (hf : ∀ k ∈ s.freed, k < s.heap.length) : MakeSharedScenario s v :=
  makeShared_scenario s v hf

theorem makeShared_then_reset_witness :
    (∀ k ∈ State.init.freed, k < State.init.heap.length) ∧ MakeSharedScenario State.init 5 :=
  ⟨by decide, makeShared_then_reset State.init 5 (by decide)⟩

/-- Claim C14: for a live non-empty `SharedPtr` `p` observing `x` and holding block `d` with strong
count `n` (`1 ≤ n`, `n + 1` representable), `weak = WeakPtr(p)` leaves the strong count at `n`,
and `locked = weak.Lock()` is a new `SharedPtr` with `locked.Get() == x` that holds `d`, the
strong count being `n + 1`.  For every live `WeakPtr`, `Lock()` returns the empty `SharedPtr()`
when the `WeakPtr` has no block or the strong count of its block is zero, and a non-empty one
holding that block otherwise. -/
theorem demote_then_lock (s : State) :
    (∀ j d n p, s.sharedAt j = some p → p.data_ = some d → s.GetCount d = some n →
      1 ≤ n → n + 1 < SIZE → DemoteLockPost s j d n p) ∧
    (∀ i w, s.weakAt i = some w → LockPost s i w) :=
  ⟨fun j d n p hp hd hc h1 h2 => demote_lock_general s j d n p hp hd hc h1 h2,
    fun i w hw => lock_general s i w hw⟩

theorem demote_then_lock_witness :
    DemoteLockPost exMixed 1 1 2 { ptr_ := Ptr.addr 2, data_ := some 1 } ∧
    LockPost exWeak 0 { ptr_ := Ptr.addr 1, data_ := some 0 } ∧
    LockPost exWeak 1 { ptr_ := Ptr.null, data_ := none } :=
  ⟨(demote_then_lock exMixed).1 1 1 2 { ptr_ := Ptr.addr 2, data_ := some 1 }
      (by decide) rfl (by decide) (by decide) (by decide),
    (demote_then_lock exWeak).2 0 _ (by decide),
    (demote_then_lock exWeak).2 1 _ (by decide)⟩

/-- Claim C15: `p1 == p2` holds if and only if `p1.Get() == p2.Get()`; two empty pointers compare
equal; two pointers that hold the same block and observe different addresses report the same
`UseCount()` and compare unequal. -/
theorem eq_iff_get (p1 p2 : SharedPtr) :
    (SharedPtr.eq p1 p2 = true ↔ p1.Get = p2.Get) ∧
    (p1.data_ = none → p2.data_ = none → SharedPtr.eq p1 p2 = true) ∧
    (∀ s d, p1.data_ = some d → p2.data_ = some d → p1.ptr_ ≠ p2.ptr_ →
      SharedPtr.UseCount s p1 = SharedPtr.UseCount s p2 ∧ SharedPtr.eq p1 p2 = false) := by
  refine ⟨by simp [SharedPtr.eq], ?_, ?_⟩
  · intro h1 h2
    simp [SharedPtr.eq, SharedPtr.Get, h1, h2]
  · intro s d h1 h2 hne
    simp [SharedPtr.eq, SharedPtr.Get, SharedPtr.UseCount, h1, h2, hne]

theorem eq_iff_get_witness :
    ∃ s, run State.init runOwnerAndAlias = some s ∧
      s.sharedAt 0 = some { ptr_ := Ptr.embedded 0, data_ := some 0 } ∧
      s.sharedAt 1 = some { ptr_ := Ptr.addr 3, data_ := some 0 } ∧
      (SharedPtr.UseCount s { ptr_ := Ptr.embedded 0, data_ := some 0 } =
          SharedPtr.UseCount s { ptr_ := Ptr.addr 3, data_ := some 0 } ∧
        SharedPtr.eq { ptr_ := Ptr.embedded 0, data_ := some 0 }
          { ptr_ := Ptr.addr 3, data_ := some 0 } = false) ∧
      SharedPtr.eq { ptr_ := Ptr.null, data_ := none } { ptr_ := Ptr.null, data_ := none } =
        true :=
  ⟨_, rfl, by decide, by decide,
    (eq_iff_get { ptr_ := Ptr.embedded 0, data_ := some 0 }
      { ptr_ := Ptr.addr 3, data_ := some 0 }).2.2 _ 0 rfl rfl (by decide),
    (eq_iff_get { ptr_ := Ptr.null, data_ := none }
      { ptr_ := Ptr.null, data_ := none }).2.1 rfl rfl⟩

/-- Claim C16 (violated by the code): after `a = SharedPtr((T*)nullptr); w = WeakPtr(a);` the
`WeakPtr` holds block 0 with weak count 1 and a null raw pointer; `w.Reset()` returns at once
because its guard tests `ptr_`: the weak count is still 1 and `w` still holds the block. -/
theorem weak_reset_skips_null_ptr :
    ∃ s, runWeakOfNull = some s ∧
      s.weakAt 0 = some { ptr_ := Ptr.null, data_ := some 0 } ∧
      s.GetWeakCount 0 = some 1 ∧
      WeakPtr.Reset s 0 = some s :=
  ⟨_, rfl, by decide, by decide, by decide⟩

/-- Claim C17: `Reset()` on an empty `SharedPtr` and on an empty `WeakPtr` returns the program
state unchanged (pointer still empty, no counter changed, nothing destroyed or deallocated);
and whenever a first `Reset()` of a `SharedPtr` or `WeakPtr` has produced a state, a second
`Reset()` of the same pointer leaves that state unchanged. -/
theorem reset_idempotent (s : State) (i : Nat) :
    (∀ p, s.sharedAt i = some p → p.data_ = none → SharedPtr.Reset s i = some s) ∧
    (∀ w, s.weakAt i = some w → w.ptr_ = Ptr.null → w.data_ = none →
      WeakPtr.Reset s i = some s) ∧
    (∀ s1, SharedPtr.Reset s i = some s1 → SharedPtr.Reset s1 i = some s1) ∧
    (∀ s1, WeakPtr.Reset s i = some s1 → WeakPtr.Reset s1 i = some s1) := by
  refine ⟨?_, ?_, ?_, ?_⟩
  · intro p hp hd
    simp [SharedPtr.Reset, hp, hd]
  · intro w hw hn _
    simp [WeakPtr.Reset, hw, hn]
  · intro s1 h
    obtain ⟨p, hp, hd⟩ := Reset_sharedAt h
    simp [SharedPtr.Reset, hp, hd]
  · intro s1 h
    obtain ⟨w, hw, hn⟩ := weakReset_weakAt h
    simp [WeakPtr.Reset, hw, hn]

theorem reset_idempotent_witness :
    SharedPtr.Reset exMixed 3 = some exMixed ∧
    WeakPtr.Reset exWeak 1 = some exWeak ∧
    (∃ s1, SharedPtr.Reset exMixed 1 = some s1 ∧ SharedPtr.Reset s1 1 = some s1) ∧
    (∃ s1, WeakPtr.Reset exWeak 0 = some s1 ∧ WeakPtr.Reset s1 0 = some s1) :=
  ⟨(reset_idempotent exMixed 3).1 { ptr_ := Ptr.null, data_ := none } (by decide) rfl,
    (reset_idempotent exWeak 1).2.1 { ptr_ := Ptr.null, data_ := none } (by decide) rfl rfl,
    ⟨_, rfl, (reset_idempotent exMixed 1).2.2.1 _ rfl⟩,
    ⟨_, rfl, (reset_idempotent exWeak 0).2.2.2 _ rfl⟩⟩

/-- Claim C19 as stated fails: `SharedPtr<T> p((T*)nullptr)` is reachable, holds a block with
strong count 1, and observes a null raw pointer: `UseCount() > 0` while `Get()` is null and the
boolean conversion is false. -/
theorem null_adoption_separates_observers :
    Reach 1 exNull ∧ exNull.sharedAt 0 = some { ptr_ := Ptr.null, data_ := some 0 } ∧
    exNull.UseCount 0 = some 1 ∧ exNull.Get 0 = some Ptr.null ∧
    exNull.toBool 0 = some false :=
  ⟨reach_exNull, by decide, by decide, by decide, by decide⟩

/-- Claim C19, amended: for every live `SharedPtr` of a state reached by fewer than `2 ^ 64`
operations, `UseCount()` is positive exactly when the block is non-null; `Get() != null`, the
boolean conversion being true and the raw reference being non-null coincide; and a non-null raw
reference implies a non-null block with a positive strong count. -/
theorem observers_of_reachable (n : Nat) (s : State) (hr : Reach n s) (hn : n < SIZE)
    (i : Nat) (p : SharedPtr) (hp : s.sharedAt i = some p) :
    (∃ c, SharedPtr.UseCount s p = some c ∧ (0 < c ↔ p.data_ ≠ none)) ∧
    (p.Get ≠ Ptr.null ↔ p.toBool = true) ∧
    (p.toBool = true ↔ p.ptr_ ≠ Ptr.null) ∧
    (p.ptr_ ≠ Ptr.null → ∃ d c, p.data_ = some d ∧ s.GetCount d = some c ∧ 0 < c) :=
  observers_general (reach_inv hr hn) (reach_tidy hr hn) i p hp

theorem observers_of_reachable_witness :
    Reach 1 exOne ∧ exOne.sharedAt 0 = some { ptr_ := Ptr.addr 1, data_ := some 0 } ∧
    ((∃ c, SharedPtr.UseCount exOne { ptr_ := Ptr.addr 1, data_ := some 0 } = some c ∧
        (0 < c ↔ ({ ptr_ := Ptr.addr 1, data_ := some 0 } : SharedPtr).data_ ≠ none)) ∧
      (({ ptr_ := Ptr.addr 1, data_ := some 0 } : SharedPtr).Get ≠ Ptr.null ↔
        ({ ptr_ := Ptr.addr 1, data_ := some 0 } : SharedPtr).toBool = true) ∧
      (({ ptr_ := Ptr.addr 1, data_ := some 0 } : SharedPtr).toBool = true ↔
        ({ ptr_ := Ptr.addr 1, data_ := some 0 } : SharedPtr).ptr_ ≠ Ptr.null) ∧
      (({ ptr_ := Ptr.addr 1, data_ := some 0 } : SharedPtr).ptr_ ≠ Ptr.null →
        ∃ d c, ({ ptr_ := Ptr.addr 1, data_ := some 0 } : SharedPtr).data_ = some d ∧
          exOne.GetCount d = some c ∧ 0 < c)) :=
  ⟨reach_exOne, by decide,
    observers_of_reachable 1 exOne reach_exOne (by decide) 0
      { ptr_ := Ptr.addr 1, data_ := some 0 } (by decide)⟩

end SmartPointers
